import Mathlib

/-!
Verification of the time-series aggregation / calendar-normalization core of the
india-generation-dashboard repository.

Shallow embedding conventions used throughout this file:

* Calendar dates are represented by their day number (days since the Unix epoch
  1970-01-01, type `ℤ`).  The repository represents dates as canonical
  `YYYY-MM-DD` strings and compares them lexicographically; for dates with
  four-digit years that lexicographic order coincides with the day-number order,
  and `isoPlusDays`/`isoMinusDays` become `+`/`-` on day numbers.  The
  year/month/day fields of a day number are recovered with `dayToCivil`
  (standard civil-from-days algorithm, the same arithmetic performed by the
  JavaScript `Date` object for UTC timestamps).
* Month keys `YYYY-MM` are represented by the linear month index
  `12 * year + (month - 1) : ℤ`; lexicographic order on the key strings
  coincides with the order of the index, and the source's `addMonths` becomes
  integer addition.
* JavaScript numbers are modelled by `ℚ`.  All values handled by the dashboard
  are finite decimals, exactly representable; `Number.isFinite` checks are
  vacuously true in the model.
* JavaScript `Map` objects are modelled by association lists with
  JS `Map.set` semantics (`jset` replaces in place or appends).
* Strings processed by the parsers are modelled as `List Char`.
-/

/-! ### Characters and digits -/

/-- Whitespace test used by the model of JavaScript `String.prototype.trim`. -/
def isWSCh (c : Char) : Bool :=
  c = ' ' || c = '\t' || c = '\r' || c = '\n'

/-- Model of JavaScript `trim()`: drop leading and trailing whitespace. -/
def trimChars (l : List Char) : List Char :=
  ((l.dropWhile isWSCh).reverse.dropWhile isWSCh).reverse

/-- The decimal digit character for `n < 10`. -/
def digitChar (n : ℕ) : Char :=
  Char.ofNat (48 + n)

/-- Numeric value of a digit character. -/
def chDigit (c : Char) : ℕ :=
  c.toNat - 48

/-- Decimal digit test (`0`–`9`). -/
def isDigitCh (c : Char) : Bool :=
  decide (48 ≤ c.toNat) && decide (c.toNat ≤ 57)

def allDigits (l : List Char) : Bool :=
  l.all isDigitCh

/-- Value of a digit string, most significant digit first (model of `Number`
on an all-digit string). -/
def digitsToNat (l : List Char) : ℕ :=
  l.foldl (fun a c => 10 * a + chDigit c) 0

/-- Model of `String(n).padStart(2, "0")` for `n < 100`. -/
def pad2 (n : ℕ) : List Char :=
  [digitChar (n / 10 % 10), digitChar (n % 10)]

/-- Four-digit zero-padded decimal rendering (used for `n ≤ 9999`). -/
def pad4 (n : ℕ) : List Char :=
  [digitChar (n / 1000 % 10), digitChar (n / 100 % 10), digitChar (n / 10 % 10),
    digitChar (n % 10)]

/-- Model of the JavaScript template interpolation of a natural number `n ≤ 9999`
(no padding). -/
def reprNat4 (n : ℕ) : List Char :=
  if n < 10 then [digitChar n]
  else if n < 100 then [digitChar (n / 10), digitChar (n % 10)]
  else if n < 1000 then [digitChar (n / 100), digitChar (n / 10 % 10), digitChar (n % 10)]
  else pad4 n

/-! ### Civil calendar arithmetic

`civilToDay`/`dayToCivil` are the standard conversions between a Gregorian
`(year, month, day)` triple and the count of days since 1970-01-01; this is
exactly the arithmetic that UTC `Date` objects perform in JavaScript. -/

/-- Gregorian leap-year rule. -/
def isLeap (y : ℤ) : Bool :=
  (y % 4 = 0 && y % 100 ≠ 0) || y % 400 = 0

/-- Length of month `m` of year `y`. -/
def daysInMonth (y m : ℤ) : ℤ :=
  if m = 2 then (if isLeap y then 29 else 28)
  else if m = 4 ∨ m = 6 ∨ m = 9 ∨ m = 11 then 30
  else 31

/-- Days since 1970-01-01 of the civil date `(y, m, d)` (valid for `1 ≤ m ≤ 12`). -/
def civilToDay (y m d : ℤ) : ℤ :=
  let y2 := if m ≤ 2 then y - 1 else y
  let era := Int.fdiv y2 400
  let yoe := y2 - era * 400
  let mp := (m + 9) % 12
  let doy := Int.fdiv (153 * mp + 2) 5 + d - 1
  let doe := yoe * 365 + Int.fdiv yoe 4 - Int.fdiv yoe 100 + doy
  era * 146097 + doe - 719468

/-- Civil date `(y, m, d)` of a day number. -/
def dayToCivil (z : ℤ) : ℤ × ℤ × ℤ :=
  let z2 := z + 719468
  let era := Int.fdiv z2 146097
  let doe := z2 - era * 146097
  let yoe := Int.fdiv (doe - Int.fdiv doe 1460 + Int.fdiv doe 36524 - Int.fdiv doe 146096) 365
  let y := yoe + era * 400
  let doy := doe - (365 * yoe + Int.fdiv yoe 4 - Int.fdiv yoe 100)
  let mp := Int.fdiv (5 * doy + 2) 153
  let d := doy - Int.fdiv (153 * mp + 2) 5 + 1
  let m := mp + (if mp < 10 then 3 else -9)
  (if m ≤ 2 then y + 1 else y, m, d)

/-- Year field of a day number. -/
def yearOf (z : ℤ) : ℤ :=
  (dayToCivil z).1

/-- Month field (1–12) of a day number. -/
def monthNumOf (z : ℤ) : ℤ :=
  (dayToCivil z).2.1

/-- Day-of-month field of a day number. -/
def dayOfMonthOf (z : ℤ) : ℤ :=
  (dayToCivil z).2.2

/-- Linear month index of a day number; models the `YYYY-MM` key
(`monthKey` in the source) with `addMonths` becoming integer addition. -/
def monthIdxOf (z : ℤ) : ℤ :=
  12 * yearOf z + (monthNumOf z - 1)

/-- Model of `getUTCDay` (0 = Sunday, …, 6 = Saturday); 1970-01-01 was a
Thursday. -/
def weekdayJs (z : ℤ) : ℤ :=
  (z + 4) % 7

/-- `startOfWeekISO` from ElectricityDashboard.tsx: shift back to the most
recent Monday. -/
def startOfWeekISO (z : ℤ) : ℤ :=
  let dow := weekdayJs z
  let diffToMon := if dow = 0 then -6 else 1 - dow
  z + diffToMon

/-- `isoAddYears` from ElectricityDashboard.tsx (`computeKPIs` and
`yearlyFYRows` carry identical copies): same month/day in the shifted year if
that date exists, otherwise the last day of the target month. -/
def isoAddYears (z : ℤ) (delta : ℤ) : ℤ :=
  let y := yearOf z
  let m := monthNumOf z
  let d := dayOfMonthOf z
  if d ≤ daysInMonth (y + delta) m then civilToDay (y + delta) m d
  else civilToDay (y + delta) m (daysInMonth (y + delta) m)

/-! ### Growth helpers (§ growthPct / safeDiv) -/

/-- `safeDiv` from ElectricityDashboard.tsx: `null` for a `null` or zero
denominator. -/
def safeDiv (n : ℚ) (d : Option ℚ) : Option ℚ :=
  match d with
  | none => none
  | some x => if x = 0 then none else some (n / x)

/-- `growthPct` from ElectricityDashboard.tsx. -/
def growthPct (curr prev : ℚ) : Option ℚ :=
  match safeDiv (curr - prev) (some prev) with
  | none => none
  | some r => some (r * 100)

/-- `growthPct` from RTMVsStocksDailyCard.tsx (the `Number.isFinite` guards are
vacuous in the `ℚ` model). -/
def growthPctRtm (curr prev : ℚ) : Option ℚ :=
  if prev = 0 then none else some ((curr - prev) / prev * 100)

/-- Claim C9: for every pair of numbers, growth percent equals
`(current - previous) / previous * 100` when the baseline is nonzero, and is
undefined (`none`) when the baseline is `0` or absent; both implementations
(`growthPct` in ElectricityDashboard.tsx and in RTMVsStocksDailyCard.tsx)
agree, and in particular `growthPct 100 0` is undefined. -/
theorem growthPct_zero_or_absent_baseline :
    (∀ curr prev : ℚ,
      growthPct curr prev = if prev = 0 then none else some ((curr - prev) / prev * 100)) ∧
    (∀ curr prev : ℚ, growthPctRtm curr prev = growthPct curr prev) ∧
    (∀ curr : ℚ, safeDiv curr none = none) ∧
    growthPct 100 0 = none := by
  refine ⟨fun curr prev => ?_, fun curr prev => ?_, fun curr => rfl, rfl⟩
  · by_cases h : prev = 0 <;> simp [growthPct, safeDiv, h, div_mul_eq_mul_div]
  · by_cases h : prev = 0 <;> simp [growthPct, growthPctRtm, safeDiv, h, div_mul_eq_mul_div]

/-! ### Control-band statistics (claim C4)

The source computes `sd = Math.sqrt(variance)` and bands `mean ± sd`,
`mean ± 2·sd`.  The model carries `mean` and `variance`; the square root is a
strictly monotone function of `variance` and does not affect definedness,
which is what the claim is about. -/

structure CtrlStats where
  mean : ℚ
  variance : ℚ
deriving DecidableEq, Repr

/-- Core of `controlStatsLeft` / `controlStatsYoY` in ElectricityDashboard.tsx
(lines 1099–1103): given the collected finite observations, `null` when fewer
than 2, otherwise mean and population variance. -/
def controlStatsEd (values : List ℚ) : Option CtrlStats :=
  if values.length < 2 then none
  else
    let mean := values.foldl (· + ·) (0 : ℚ) / (values.length : ℚ)
    let variance :=
      values.foldl (fun a b => a + (b - mean) * (b - mean)) (0 : ℚ) / (values.length : ℚ)
    some ⟨mean, variance⟩

/-- `rtmControl` in RTMVsStocksDailyCard.tsx (lines 571–582): `null` only when
there are no observations; sample variance when `n > 1`, zero variance when
`n = 1`. -/
def rtmControl (vals : List ℚ) : Option CtrlStats :=
  if vals.length = 0 then none
  else
    let mean := vals.foldl (· + ·) (0 : ℚ) / (vals.length : ℚ)
    let variance :=
      if 1 < vals.length then
        vals.foldl (fun acc v => acc + (v - mean) * (v - mean)) (0 : ℚ) / ((vals.length : ℚ) - 1)
      else 0
    some ⟨mean, variance⟩

/-- Claim C4, counterexample: the control-band computation of
RTMVsStocksDailyCard.tsx is *defined* for the single observation `[5]` (a
degenerate band with mean 5 and zero variance, hence zero standard deviation),
contradicting the claim that the result is undefined whenever there are fewer
than 2 observations. -/
theorem rtmControl_single_observation_defined :
    rtmControl [5] = some ⟨5, 0⟩ ∧ rtmControl [5] ≠ none := by
  have h : rtmControl [5] = some ⟨5, 0⟩ := by norm_num [rtmControl]
  exact ⟨h, by simp [h]⟩

/-- Claim C4, amended: the ElectricityDashboard control-band computation is
undefined exactly when there are fewer than 2 observations, while the
RTMVsStocksDailyCard one is undefined only for an empty observation list and
yields a degenerate zero-variance band for a single observation; with 2 or more
observations both are defined, e.g. `[2, 4, 6]` gives mean 4 and a computable
variance (population 8/3, sample 4). -/
theorem controlStats_min_observations :
    (∀ values : List ℚ, (controlStatsEd values).isSome ↔ 2 ≤ values.length) ∧
    (∀ vals : List ℚ, (rtmControl vals).isSome ↔ vals ≠ []) ∧
    controlStatsEd [2, 4, 6] = some ⟨4, 8 / 3⟩ ∧
    rtmControl [2, 4, 6] = some ⟨4, 4⟩ := by
  refine ⟨fun values => ?_, fun vals => ?_, by norm_num [controlStatsEd], by norm_num [rtmControl]⟩
  · by_cases h : values.length < 2
    · simp [controlStatsEd, h]
    · simp [controlStatsEd, h]
      omega
  · by_cases h : vals.length = 0
    · simp [rtmControl, h, List.length_eq_zero.mp h]
    · simp [rtmControl, h]
      exact List.ne_nil_of_length_pos (Nat.pos_of_ne_zero h)

/-! ### Rolling calendar-day windows (claim C2) -/

/-- The body of the `while (cur <= endIso)` accumulation loop shared by
`rollingAvgRtm` (RTMVsStocksDailyCard.tsx) and `sumCountRangeInclusive` /
`sumCountInclusive` (ElectricityDashboard.tsx): starting at day `cur`, scan
`steps` consecutive days, adding every present value and counting it. -/
def sumCountLoop (lookup : ℤ → Option ℚ) (cur : ℤ) (steps : ℕ) (sum : ℚ) (count : ℕ) :
    ℚ × ℕ :=
  match steps with
  | 0 => (sum, count)
  | k + 1 =>
    match lookup cur with
    | some v => sumCountLoop lookup (cur + 1) k (sum + v) (count + 1)
    | none => sumCountLoop lookup (cur + 1) k sum count

/-- `sumCountRangeInclusive` from ElectricityDashboard.tsx (`dailyForChart`):
`(null, 0)` for an inverted range, otherwise the present-value sum
(`null` when no day is populated) and the present count. -/
def sumCountRangeInclusive (lookup : ℤ → Option ℚ) (startD endD : ℤ) : Option ℚ × ℕ :=
  if endD < startD then (none, 0)
  else
    let r := sumCountLoop lookup startD (endD - startD + 1).toNat 0 0
    (if r.2 = 0 then none else some r.1, r.2)

/-- `rollingAvgRtm` from RTMVsStocksDailyCard.tsx: calendar-day window of `n`
days ending at `anchor`, skipping missing values; `null` when no day in the
window is populated. -/
def rollingAvgRtm (series : ℤ → Option ℚ) (anchor : ℤ) (n : ℕ) : Option ℚ :=
  let start := anchor - n + 1
  let r := sumCountLoop series start (anchor - start + 1).toNat 0 0
  if r.2 = 0 then none else some (r.1 / (r.2 : ℚ))

/-- The list of the `n` calendar days `anchor - (n-1), …, anchor` (specification
side of the window). -/
def windowList (anchor : ℤ) (n : ℕ) : List ℤ :=
  (List.range n).map (fun i : ℕ => anchor - n + 1 + (i : ℤ))

/-- One output point of the chart series. -/
structure ChartPt where
  units : ℚ
  prev_year_units : Option ℚ
  yoy_pct : Option ℚ
  mom_pct : Option ℚ
deriving DecidableEq, Repr

/-- One anchor of the 30-day rolling branch of `dailyForChart`
(ElectricityDashboard.tsx lines 957–989), for both the
`rolling30_sum` (`isSum = true`) and `rolling30_avg` (`isSum = false`) views. -/
def rolling30Pt (lookup : ℤ → Option ℚ) (isSum : Bool) (cur : ℤ) : ChartPt :=
  let currSC := sumCountRangeInclusive lookup (cur - 29) cur
  let currVal : ℚ :=
    if isSum then currSC.1.getD 0
    else
      match currSC.1 with
      | some s => if currSC.2 = 0 then 0 else s / (currSC.2 : ℚ)
      | none => 0
  let prevSC := sumCountRangeInclusive lookup (cur - 365 - 29) (cur - 365)
  let prevVal : Option ℚ :=
    if isSum then prevSC.1
    else
      match prevSC.1 with
      | some s => if prevSC.2 = 0 then none else some (s / (prevSC.2 : ℚ))
      | none => none
  { units := currVal
    prev_year_units := prevVal
    yoy_pct := match prevVal with
      | some p => growthPct currVal p
      | none => none
    mom_pct := none }

/-- The full 30-day rolling branch: one point per calendar day from `f` to `t`. -/
def rolling30Branch (lookup : ℤ → Option ℚ) (isSum : Bool) (f t : ℤ) : List ChartPt :=
  (List.range (t - f + 1).toNat).map (fun i : ℕ => rolling30Pt lookup isSum (f + (i : ℤ)))

theorem rangeMap_cons (cur : ℤ) (k : ℕ) :
    (List.range (k + 1)).map (fun i : ℕ => cur + (i : ℤ)) =
      cur :: ((List.range k).map (fun i : ℕ => (cur + 1) + (i : ℤ))) := by
  rw [List.range_succ_eq_map, List.map_cons, List.map_map]
  refine congrArg₂ _ (by simp) ?_
  apply List.map_congr_left
  intro a _
  simp [Function.comp]
  ring

theorem sumCountLoop_spec (lookup : ℤ → Option ℚ) :
    ∀ (steps : ℕ) (cur : ℤ) (sum : ℚ) (count : ℕ),
      sumCountLoop lookup cur steps sum count =
        (sum + (((List.range steps).map (fun i : ℕ => cur + (i : ℤ))).filterMap lookup).sum,
          count + (((List.range steps).map (fun i : ℕ => cur + (i : ℤ))).filterMap lookup).length) := by
  intro steps
  induction steps with
  | zero => intro cur sum count; simp [sumCountLoop]
  | succ k ih =>
    intro cur sum count
    rw [rangeMap_cons]
    cases hc : lookup cur with
    | none =>
      simpa [sumCountLoop, hc, List.filterMap_cons] using ih (cur + 1) sum count
    | some v =>
      have h2 := ih (cur + 1) (sum + v) (count + 1)
      simp only [sumCountLoop, hc]
      rw [h2]
      simp only [List.filterMap_cons, hc, List.sum_cons, List.length_cons, Prod.mk.injEq]
      exact ⟨by ring, by omega⟩

theorem sumCountRangeInclusive_spec (lookup : ℤ → Option ℚ) (startD endD : ℤ)
    (h : startD ≤ endD) :
    sumCountRangeInclusive lookup startD endD =
      (if (((List.range (endD - startD + 1).toNat).map
              (fun i : ℕ => startD + (i : ℤ))).filterMap lookup).length = 0 then none
        else some (((List.range (endD - startD + 1).toNat).map
              (fun i : ℕ => startD + (i : ℤ))).filterMap lookup).sum,
        (((List.range (endD - startD + 1).toNat).map
              (fun i : ℕ => startD + (i : ℤ))).filterMap lookup).length) := by
  simp only [sumCountRangeInclusive, if_neg (not_lt.mpr h)]
  rw [sumCountLoop_spec]
  simp
  rw [Nat.zero_add]

/-- Claim C2, amended: the calendar-day rolling average includes exactly the `n`
calendar dates `anchor-(n-1) … anchor`, sums only the populated dates and
divides by the count of populated dates; a window with zero populated days
yields `null` from `rollingAvgRtm` — but in the 30-day rolling branch of
`dailyForChart` an empty window yields a current value of `0` under *both* sum
and average semantics, and a `null` prior-year comparison value under both. -/
theorem rolling_window_semantics :
    ∀ (series : ℤ → Option ℚ) (anchor : ℤ) (n : ℕ), 1 ≤ n →
      (∀ d : ℤ, d ∈ windowList anchor n ↔ anchor - (n : ℤ) + 1 ≤ d ∧ d ≤ anchor) ∧
      ((windowList anchor n).filterMap series = [] → rollingAvgRtm series anchor n = none) ∧
      (∀ vs : List ℚ, (windowList anchor n).filterMap series = vs → vs ≠ [] →
        rollingAvgRtm series anchor n = some (vs.sum / (vs.length : ℚ))) ∧
      (∀ (lookup : ℤ → Option ℚ) (isSum : Bool) (cur : ℤ),
        ((windowList cur 30).filterMap lookup = [] →
          (rolling30Pt lookup isSum cur).units = 0) ∧
        ((windowList (cur - 365) 30).filterMap lookup = [] →
          (rolling30Pt lookup isSum cur).prev_year_units = none)) := by
  intro series anchor n hn
  have hsteps : (anchor - (anchor - (n : ℤ) + 1) + 1).toNat = n := by omega
  refine ⟨fun d => ?_, fun h => ?_, fun vs hvs hne => ?_, fun lookup isSum cur => ?_⟩
  · simp only [windowList, List.mem_map, List.mem_range]
    constructor
    · rintro ⟨i, hi, rfl⟩
      omega
    · intro hb
      exact ⟨(d - (anchor - n + 1)).toNat, by omega, by omega⟩
  · simp only [rollingAvgRtm, hsteps]
    rw [sumCountLoop_spec]
    simp only [windowList] at h
    rw [h]
    simp
  · simp only [rollingAvgRtm, hsteps]
    rw [sumCountLoop_spec]
    simp only [windowList] at hvs
    rw [hvs]
    have : vs.length ≠ 0 := fun hl => hne (List.length_eq_zero.mp hl)
    simp [this]
  · have hw30 : ∀ a : ℤ, windowList a 30 =
        (List.range (a - (a - 29) + 1).toNat).map (fun i : ℕ => (a - 29) + (i : ℤ)) := by
      intro a
      have ht : (a - (a - 29) + 1).toNat = 30 := by omega
      rw [ht]
      simp only [windowList]
      apply List.map_congr_left
      intro b _
      push_cast
      ring
    constructor
    · intro h
      rw [hw30 cur] at h
      have hc := sumCountRangeInclusive_spec lookup (cur - 29) cur (by omega)
      rw [h] at hc
      simp only [List.length_nil, if_pos rfl] at hc
      cases isSum <;>
        simp [rolling30Pt, hc]
    · intro h
      have heq : cur - 365 - 29 = (cur - 365) - 29 := by ring
      rw [hw30 (cur - 365)] at h
      have hc := sumCountRangeInclusive_spec lookup ((cur - 365) - 29) (cur - 365) (by omega)
      rw [h] at hc
      simp only [List.length_nil, if_pos rfl] at hc
      cases isSum <;>
        simp [rolling30Pt, heq, hc]

/-- A series with a single populated day (day number 0), used to exhibit the
empty-window behaviour of the 30-day rolling branch. -/
def c2Lookup : ℤ → Option ℚ :=
  fun d => if d = 0 then some 10 else none

/-- Claim C2, counterexample: anchored at day 100 every day of the 30-day
window `71 … 100` of `c2Lookup` is unpopulated, yet the `rolling30_avg`
(average semantics) branch of `dailyForChart` produces the value `0` for that
anchor — not `null` as the claim states for average semantics. -/
theorem rolling30_avg_empty_window_yields_zero :
    (windowList 100 30).filterMap c2Lookup = [] ∧
      (rolling30Pt c2Lookup false 100).units = 0 ∧
      rolling30Branch c2Lookup false 100 100 = [rolling30Pt c2Lookup false 100] := by
  refine ⟨by decide, by decide, by decide⟩

/-- A series populated on 3 of the 7 days `4 … 10` (days 5, 8 and 10). -/
def c2Series : ℤ → Option ℚ :=
  fun d => if d = 5 then some 2 else if d = 8 then some 4 else if d = 10 then some 6 else none

/-- Witness for `rolling_window_semantics`: a 7-day window with 3 populated
days divides by 3 (present count), giving (2+4+6)/3 = 4. -/
theorem rolling_window_semantics_witness :
    rollingAvgRtm c2Series 10 7 = some 4 := by
  have hv : (windowList 10 7).filterMap c2Series = [(2 : ℚ), 4, 6] := by decide
  have h := (rolling_window_semantics c2Series 10 7 (by norm_num)).2.2.1 _ hv (by simp)
  rw [h]
  norm_num

/-! ### Delimited-line splitting (claim C5) -/

/-- Split a character list on a separator character (model of
`String.prototype.split` with a single-character separator). -/
def splitOnCh (sep : Char) : List Char → List (List Char)
  | [] => [[]]
  | c :: rest =>
    match splitOnCh sep rest with
    | [] => [[c]]
    | g :: gs => if c = sep then [] :: g :: gs else (c :: g) :: gs

/-- The per-line field splitter of `csvParse` in ElectricityDashboard.tsx
(line 269): `line.split(",").map((c) => c.trim())` — no quote handling. -/
def splitCommaTrim (line : List Char) : List (List Char) :=
  (splitOnCh ',' line).map trimChars

/-- The quote-aware `parseLine` loop inside `parseCSVSimple`
(RatedCapacity.tsx lines 64–91), with the accumulated current field kept in
reverse order.  A doubled quote inside a quoted region is an escaped literal
quote; commas inside quotes do not split. -/
def parseLineQAux : List Char → List Char → Bool → List (List Char)
  | [], cur, _ => [trimChars cur.reverse]
  | '"' :: '"' :: rest, cur, true => parseLineQAux rest ('"' :: cur) true
  | '"' :: rest, cur, inQ => parseLineQAux rest cur (!inQ)
  | ',' :: rest, cur, false => trimChars cur.reverse :: parseLineQAux rest [] false
  | c :: rest, cur, inQ => parseLineQAux rest (c :: cur) inQ

/-- `parseLine` of `parseCSVSimple` (RatedCapacity.tsx). -/
def parseLineQ (line : List Char) : List (List Char) :=
  parseLineQAux line [] false

/-- `parseCSVSimple` from RatedCapacity.tsx: non-empty trimmed lines, first
line is the header, remaining lines are rows, all fields split by
`parseLineQ`. -/
def parseCSVSimple (lines : List (List Char)) : List (List Char) × List (List (List Char)) :=
  let ls := (lines.map trimChars).filter (fun l => l ≠ [])
  match ls with
  | [] => ([], [])
  | h :: rest => (parseLineQ h, rest.map parseLineQ)

/-- Claim C5, counterexample: the line splitter used by `csvParse` in
ElectricityDashboard.tsx does *not* honor double-quoted fields — the line
`"Mumbai, India",123` splits into three fields there, not two. -/
theorem csvParse_split_ignores_quotes :
    splitCommaTrim ("\"Mumbai, India\",123".data) =
      ["\"Mumbai".data, "India\"".data, "123".data] ∧
    (splitCommaTrim ("\"Mumbai, India\",123".data)).length ≠ 2 := by
  refine ⟨by decide, by decide⟩

/-- Claim C5, amended: the quote-aware splitter of `parseCSVSimple`
(RatedCapacity.tsx) honors double-quoted fields — `"Mumbai, India",123`
parses to exactly the two fields `Mumbai, India` and `123`, and a doubled
quote inside quotes is an escaped literal quote — while the line splitter of
`csvParse` (ElectricityDashboard.tsx) splits naively on every comma. -/
theorem parseLineQ_honors_quotes :
    parseLineQ ("\"Mumbai, India\",123".data) = ["Mumbai, India".data, "123".data] ∧
    (parseLineQ ("\"Mumbai, India\",123".data)).length = 2 ∧
    parseLineQ ("\"a\"\"b\",1".data) = ["a\"b".data, "1".data] := by
  refine ⟨by decide, by decide, by decide⟩

/-! ### JavaScript `Map` model

Association lists with `Map.set` semantics: `jset` replaces the value of an
existing key in place and appends a new key at the end, so keys are unique by
construction and `jget` is first-match lookup. -/

def jget {κ β : Type} [DecidableEq κ] : List (κ × β) → κ → Option β
  | [], _ => none
  | (k, v) :: rest, key => if key = k then some v else jget rest key

def jset {κ β : Type} [DecidableEq κ] : List (κ × β) → κ → β → List (κ × β)
  | [], key, v => [(key, v)]
  | (k, w) :: rest, key, v =>
    if key = k then (k, v) :: rest else (k, w) :: jset rest key v

theorem jget_jset_self {κ β : Type} [DecidableEq κ] (m : List (κ × β)) (k : κ) (v : β) :
    jget (jset m k v) k = some v := by
  induction m with
  | nil => simp [jget, jset]
  | cons p rest ih =>
    obtain ⟨k0, w⟩ := p
    by_cases h : k = k0 <;> simp [jget, jset, h, ih]

theorem jget_jset_ne {κ β : Type} [DecidableEq κ] (m : List (κ × β)) (k key : κ) (v : β)
    (h : key ≠ k) : jget (jset m k v) key = jget m key := by
  induction m with
  | nil => simp [jget, jset, h]
  | cons p rest ih =>
    obtain ⟨k0, w⟩ := p
    by_cases h0 : k = k0
    · subst h0
      simp [jget, jset, h]
    · by_cases h1 : key = k0 <;> simp [jget, jset, h0, h1, ih]

theorem jget_eq_none_iff {κ β : Type} [DecidableEq κ] (m : List (κ × β)) (key : κ) :
    jget m key = none ↔ key ∉ m.map Prod.fst := by
  induction m with
  | nil => simp [jget]
  | cons p rest ih =>
    obtain ⟨k0, w⟩ := p
    by_cases h : key = k0 <;> simp [jget, h, ih]

/-- The accumulation pattern `map.set(k(p), upd(p, map.get(k(p))))` folded over
a list (used for the week/month/fiscal-year aggregation maps in the source). -/
def accumMap {α κ β : Type} [DecidableEq κ] (keyf : α → κ) (upd : α → Option β → β)
    (l : List α) : List (κ × β) :=
  l.foldl (fun m p => jset m (keyf p) (upd p (jget m (keyf p)))) []

/-- What the accumulation does to the entries of a single key. -/
def optAccum {α β : Type} (upd : α → Option β → β) (l : List α) (o : Option β) : Option β :=
  l.foldl (fun acc p => some (upd p acc)) o

theorem accumMap_get_aux {α κ β : Type} [DecidableEq κ] (keyf : α → κ)
    (upd : α → Option β → β) :
    ∀ (l : List α) (m : List (κ × β)) (key : κ),
      jget (l.foldl (fun m p => jset m (keyf p) (upd p (jget m (keyf p)))) m) key =
        optAccum upd (l.filter (fun p => keyf p = key)) (jget m key) := by
  intro l
  induction l with
  | nil => intro m key; simp [optAccum]
  | cons p rest ih =>
    intro m key
    simp only [List.foldl_cons, List.filter_cons]
    by_cases h : keyf p = key
    · rw [ih]
      have hg : jget (jset m (keyf p) (upd p (jget m (keyf p)))) key = some (upd p (jget m key)) := by
        rw [← h] at *
        exact jget_jset_self m (keyf p) _
      rw [hg]
      simp [h, optAccum]
    · rw [ih]
      have hg : jget (jset m (keyf p) (upd p (jget m (keyf p)))) key = jget m key :=
        jget_jset_ne m (keyf p) key _ (fun hk => h hk.symm)
      rw [hg]
      simp [h]

theorem accumMap_get {α κ β : Type} [DecidableEq κ] (keyf : α → κ) (upd : α → Option β → β)
    (l : List α) (key : κ) :
    jget (accumMap keyf upd l) key = optAccum upd (l.filter (fun p => keyf p = key)) none := by
  have h := accumMap_get_aux keyf upd l [] key
  simpa [accumMap, jget] using h

theorem optAccum_isSome {α β : Type} (upd : α → Option β → β) :
    ∀ (l : List α) (b : β), ∃ c, optAccum upd l (some b) = some c := by
  intro l
  induction l with
  | nil => intro b; exact ⟨b, rfl⟩
  | cons p rest ih =>
    intro b
    simpa [optAccum] using ih (upd p (some b))

theorem optAccum_eq_none_iff {α β : Type} (upd : α → Option β → β) (l : List α) :
    optAccum upd l none = none ↔ l = [] := by
  cases l with
  | nil => simp [optAccum]
  | cons p rest =>
    simp only [optAccum, List.foldl_cons]
    obtain ⟨c, hc⟩ := optAccum_isSome upd rest (upd p none)
    simp [optAccum] at hc
    simp [hc]

theorem accumMap_get_eq_none_iff {α κ β : Type} [DecidableEq κ] (keyf : α → κ)
    (upd : α → Option β → β) (l : List α) (key : κ) :
    jget (accumMap keyf upd l) key = none ↔ l.filter (fun p => keyf p = key) = [] := by
  rw [accumMap_get, optAccum_eq_none_iff]

/-- Keys of the accumulation map are exactly the keys occurring in the list. -/
theorem accumMap_mem_keys_iff {α κ β : Type} [DecidableEq κ] (keyf : α → κ)
    (upd : α → Option β → β) (l : List α) (key : κ) :
    key ∈ (accumMap keyf upd l).map Prod.fst ↔ ∃ p ∈ l, keyf p = key := by
  rw [← not_iff_not, ← jget_eq_none_iff, accumMap_get_eq_none_iff, List.filter_eq_nil_iff]
  simp

/-- Characterization of the sum-accumulation `map.set(k, (map.get(k) || 0) + f p)`. -/
theorem optAccum_sum {α : Type} (f : α → ℚ) :
    ∀ (l : List α) (a : ℚ),
      optAccum (fun p acc => acc.getD 0 + f p) l (some a) = some (a + (l.map f).sum) := by
  intro l
  induction l with
  | nil => intro a; simp [optAccum]
  | cons p rest ih =>
    intro a
    have h := ih (a + f p)
    simp only [optAccum, List.foldl_cons, Option.getD_some] at h ⊢
    rw [h]
    simp only [List.map_cons, List.sum_cons]
    ring_nf

theorem accumMap_sum_get {α κ : Type} [DecidableEq κ] (keyf : α → κ) (f : α → ℚ)
    (l : List α) (key : κ) :
    jget (accumMap keyf (fun p acc => acc.getD 0 + f p) l) key =
      (if (l.filter (fun p => keyf p = key)).isEmpty then none
        else some (((l.filter (fun p => keyf p = key)).map f).sum)) := by
  rw [accumMap_get]
  cases hg : l.filter (fun p => keyf p = key) with
  | nil => simp [optAccum]
  | cons p rest =>
    have h := optAccum_sum f rest (Option.getD none 0 + f p)
    simp only [optAccum, List.foldl_cons] at h ⊢
    rw [h]
    simp only [Option.getD_none, List.map_cons, List.sum_cons, List.isEmpty_cons,
      Bool.false_eq_true, if_false, Option.some.injEq]
    ring

/-- Characterization of the count-accumulation `map.set(k, (map.get(k) || 0) + 1)`. -/
theorem optAccum_count {α : Type} :
    ∀ (l : List α) (a : ℕ),
      optAccum (fun (_ : α) (acc : Option ℕ) => acc.getD 0 + 1) l (some a) =
        some (a + l.length) := by
  intro l
  induction l with
  | nil => intro a; simp [optAccum]
  | cons p rest ih =>
    intro a
    have h := ih (a + 1)
    simp only [optAccum, List.foldl_cons, Option.getD_some] at h ⊢
    rw [h]
    simp only [List.length_cons, Option.some.injEq]
    omega

theorem accumMap_count_get {α κ : Type} [DecidableEq κ] (keyf : α → κ) (l : List α) (key : κ) :
    jget (accumMap keyf (fun (_ : α) (acc : Option ℕ) => acc.getD 0 + 1) l) key =
      (if (l.filter (fun p => keyf p = key)).isEmpty then none
        else some ((l.filter (fun p => keyf p = key)).length)) := by
  rw [accumMap_get]
  cases hg : l.filter (fun p => keyf p = key) with
  | nil => simp [optAccum]
  | cons p rest =>
    have h := optAccum_count rest (Option.getD none 0 + 1)
    simp only [optAccum, List.foldl_cons] at h ⊢
    rw [h]
    simp only [Option.getD_none, List.length_cons, List.isEmpty_cons,
      Bool.false_eq_true, if_false, Option.some.injEq]
    omega

/-! ### Weekly aggregation (claim C7) -/

/-- A daily data point (`{date, value}` in the source, the date being the
canonical key, here its day number). -/
structure DailyPoint where
  date : ℤ
  value : ℚ
deriving DecidableEq, Repr

/-- An output row of `weeklyRows`. -/
structure WRow where
  weekStart : ℤ
  value : ℚ
  wow_pct : Option ℚ
  yoy_pct : Option ℚ
deriving DecidableEq, Repr

/-- The `weekSum` map of `weeklyRows` (ElectricityDashboard.tsx lines
1207–1214). -/
def weekSumMap (series : List DailyPoint) : List (ℤ × ℚ) :=
  accumMap (fun p => startOfWeekISO p.date) (fun p acc => acc.getD 0 + p.value) series

/-- The `weekCount` map of `weeklyRows`. -/
def weekCountMap (series : List DailyPoint) : List (ℤ × ℕ) :=
  accumMap (fun p => startOfWeekISO p.date)
    (fun (_ : DailyPoint) (acc : Option ℕ) => acc.getD 0 + 1) series

/-- The `curr` value of a `weeklyRows` row: week sum, or weekly mean in
average mode. -/
def weekCurrVal (series : List DailyPoint) (isSum : Bool) (wk : ℤ) : ℚ :=
  if isSum then (jget (weekSumMap series) wk).getD 0
  else (jget (weekSumMap series) wk).getD 0 / (((jget (weekCountMap series) wk).getD 0 : ℕ) : ℚ)

/-- The `prevVal` / `pyVal` lookup of `weeklyRows`: the week value at a given
week-start key, `null` unless the key is present with a nonzero count. -/
def weekValAt (series : List DailyPoint) (isSum : Bool) (w : ℤ) : Option ℚ :=
  match jget (weekSumMap series) w, jget (weekCountMap series) w with
  | some ps, some pc => if pc = 0 then none else some (if isSum then ps else ps / (pc : ℚ))
  | _, _ => none

/-- One output row of `weeklyRows` for week-start `wk`. -/
def weeklyRowFor (series : List DailyPoint) (isSum : Bool) (wk : ℤ) : WRow :=
  { weekStart := wk
    value := weekCurrVal series isSum wk
    wow_pct := match weekValAt series isSum (wk - 7) with
      | some pv => growthPct (weekCurrVal series isSum wk) pv
      | none => none
    yoy_pct := match weekValAt series isSum (wk - 364) with
      | some pv => growthPct (weekCurrVal series isSum wk) pv
      | none => none }

/-- `weeklyRows` from ElectricityDashboard.tsx (lines 1204–1241): group daily
points by their Monday week start, keep the last 104 weeks in ascending order,
and compare each week against the weeks starting 7 and 364 days earlier. -/
def weeklyRows (series : List DailyPoint) (isSum : Bool) : List WRow :=
  let weeks := List.insertionSort (· ≤ ·) ((weekSumMap series).map Prod.fst)
  (weeks.drop (weeks.length - 104)).map (weeklyRowFor series isSum)

/-- Specification-side group of the days belonging to the week starting at `w`. -/
def weekGroup (series : List DailyPoint) (w : ℤ) : List DailyPoint :=
  series.filter (fun p => startOfWeekISO p.date = w)

/-- Specification-side week value: sum (or mean) of the values of the days in
the week group, absent if the group is empty. -/
def specWeekVal (series : List DailyPoint) (isSum : Bool) (w : ℤ) : Option ℚ :=
  if (weekGroup series w).isEmpty then none
  else
    some (if isSum then ((weekGroup series w).map DailyPoint.value).sum
      else ((weekGroup series w).map DailyPoint.value).sum / ((weekGroup series w).length : ℚ))

theorem weekSumMap_get (series : List DailyPoint) (w : ℤ) :
    jget (weekSumMap series) w =
      (if (weekGroup series w).isEmpty then none
        else some (((weekGroup series w).map DailyPoint.value).sum)) := by
  have h := accumMap_sum_get (fun p : DailyPoint => startOfWeekISO p.date)
    (fun p : DailyPoint => p.value) series w
  simpa [weekSumMap, weekGroup] using h

theorem weekCountMap_get (series : List DailyPoint) (w : ℤ) :
    jget (weekCountMap series) w =
      (if (weekGroup series w).isEmpty then none
        else some ((weekGroup series w).length)) := by
  have h := accumMap_count_get (fun p : DailyPoint => startOfWeekISO p.date) series w
  simpa [weekCountMap, weekGroup] using h

theorem weekValAt_spec (series : List DailyPoint) (isSum : Bool) (w : ℤ) :
    weekValAt series isSum w = specWeekVal series isSum w := by
  unfold weekValAt specWeekVal
  rw [weekSumMap_get, weekCountMap_get]
  cases hg : (weekGroup series w).isEmpty with
  | true => simp
  | false =>
    have hlen : (weekGroup series w).length ≠ 0 := by
      intro h0
      have hnil := List.length_eq_zero.mp h0
      rw [hnil] at hg
      simp at hg
    simp [hlen]

theorem weekCurrVal_spec (series : List DailyPoint) (isSum : Bool) (wk : ℤ)
    (hne : (weekGroup series wk).isEmpty = false) :
    weekCurrVal series isSum wk =
      (if isSum then ((weekGroup series wk).map DailyPoint.value).sum
        else ((weekGroup series wk).map DailyPoint.value).sum /
          ((weekGroup series wk).length : ℚ)) := by
  unfold weekCurrVal
  rw [weekSumMap_get, weekCountMap_get, hne]
  simp

theorem startOfWeekISO_monday (z : ℤ) :
    weekdayJs (startOfWeekISO z) = 1 ∧ startOfWeekISO z ≤ z ∧ z ≤ startOfWeekISO z + 6 := by
  simp only [startOfWeekISO, weekdayJs]
  split_ifs with h <;> omega

/-- Claim C7: `weeklyRows` groups days by `startOfWeekISO`, which maps every
date to the most recent Monday at or before it; each row's value aggregates
exactly the days of that week, week-over-week growth compares against the week
starting exactly 7 days earlier, and year-over-year growth against the week
starting exactly 364 days earlier (not a calendar-year shift). -/
theorem weeklyRows_weekly_growth :
    ∀ (series : List DailyPoint) (isSum : Bool) (r : WRow),
      r ∈ weeklyRows series isSum →
      (∀ z : ℤ, weekdayJs (startOfWeekISO z) = 1 ∧ startOfWeekISO z ≤ z ∧
        z ≤ startOfWeekISO z + 6) ∧
      specWeekVal series isSum r.weekStart = some r.value ∧
      r.wow_pct = (match specWeekVal series isSum (r.weekStart - 7) with
        | some pv => growthPct r.value pv
        | none => none) ∧
      r.yoy_pct = (match specWeekVal series isSum (r.weekStart - 364) with
        | some pv => growthPct r.value pv
        | none => none) := by
  intro series isSum r hr
  simp only [weeklyRows, List.mem_map] at hr
  obtain ⟨wk, hwk, rfl⟩ := hr
  have hkeys : wk ∈ (weekSumMap series).map Prod.fst := by
    have h1 := List.mem_of_mem_drop hwk
    rwa [List.mem_insertionSort] at h1
  have hne : (weekGroup series wk).isEmpty = false := by
    cases hb : (weekGroup series wk).isEmpty
    · rfl
    · exfalso
      have hg := weekSumMap_get series wk
      rw [hb, if_pos rfl] at hg
      exact (jget_eq_none_iff (weekSumMap series) wk).mp hg hkeys
  refine ⟨startOfWeekISO_monday, ?_, ?_, ?_⟩
  · show specWeekVal series isSum wk = some (weekCurrVal series isSum wk)
    rw [weekCurrVal_spec series isSum wk hne]
    simp [specWeekVal, hne]
  · show (match weekValAt series isSum (wk - 7) with
      | some pv => growthPct (weekCurrVal series isSum wk) pv
      | none => none) =
      (match specWeekVal series isSum (wk - 7) with
        | some pv => growthPct (weeklyRowFor series isSum wk).value pv
        | none => none)
    rw [weekValAt_spec]
    rfl
  · show (match weekValAt series isSum (wk - 364) with
      | some pv => growthPct (weekCurrVal series isSum wk) pv
      | none => none) =
      (match specWeekVal series isSum (wk - 364) with
        | some pv => growthPct (weeklyRowFor series isSum wk).value pv
        | none => none)
    rw [weekValAt_spec]
    rfl

/-- Two daily points: Sunday 1970-01-04 (day 3, week starting Monday day −3)
and Monday 1970-01-05 (day 4, its own week start). -/
def c7Series : List DailyPoint :=
  [⟨3, 10⟩, ⟨4, 20⟩]

theorem c7Series_rows :
    weeklyRows c7Series true = [⟨-3, 10, none, none⟩, ⟨4, 20, some 100, none⟩] := by
  norm_num [weeklyRows, weekSumMap, weekCountMap, weeklyRowFor, weekCurrVal, weekValAt,
    accumMap, jget, jset, startOfWeekISO, weekdayJs, optAccum, List.insertionSort,
    List.orderedInsert, growthPct, safeDiv]

/-- Witness for `weeklyRows_weekly_growth`: on `c7Series` in sum mode the week
starting at day 4 has value 20 and week-over-week growth 100% against the week
starting at day −3 (exactly 7 days earlier, value 10). -/
theorem weeklyRows_weekly_growth_witness :
    (⟨4, 20, some 100, none⟩ : WRow) ∈ weeklyRows c7Series true ∧
      specWeekVal c7Series true 4 = some 20 := by
  have hm : (⟨4, 20, some 100, none⟩ : WRow) ∈ weeklyRows c7Series true := by
    rw [c7Series_rows]
    simp
  have h := weeklyRows_weekly_growth c7Series true _ hm
  exact ⟨hm, by simpa using h.2.1⟩

/-! ### Monthly aggregation with comparable partial months (claim C1) -/

/-- The per-month record built by `buildMonthAggMap`
(ElectricityDashboard.tsx lines 352–373). -/
structure MonthRec where
  sum : ℚ
  count : ℕ
  maxDay : ℤ
  byDaySum : List (ℤ × ℚ)
  byDayCount : List (ℤ × ℕ)
deriving DecidableEq, Repr

def emptyMonthRec : MonthRec :=
  { sum := 0, count := 0, maxDay := 0, byDaySum := [], byDayCount := [] }

/-- One step of `buildMonthAggMap`: fold a daily point into its month record. -/
def monthUpd (p : DailyPoint) (acc : Option MonthRec) : MonthRec :=
  let r0 := acc.getD emptyMonthRec
  let day := dayOfMonthOf p.date
  { sum := r0.sum + p.value
    count := r0.count + 1
    maxDay := max r0.maxDay day
    byDaySum := jset r0.byDaySum day ((jget r0.byDaySum day).getD 0 + p.value)
    byDayCount := jset r0.byDayCount day ((jget r0.byDayCount day).getD 0 + 1) }

/-- `buildMonthAggMap` from ElectricityDashboard.tsx. -/
def buildMonthAggMap (series : List DailyPoint) : List (ℤ × MonthRec) :=
  accumMap (fun p => monthIdxOf p.date) monthUpd series

/-- Specification-side group of the series entries falling in month `m`. -/
def monthGroup (series : List DailyPoint) (m : ℤ) : List DailyPoint :=
  series.filter (fun p => monthIdxOf p.date = m)

/-- What a month record must say about its group of daily points. -/
def monthRecOK (g : List DailyPoint) (r : MonthRec) : Prop :=
  r.sum = (g.map DailyPoint.value).sum ∧
  r.count = g.length ∧
  r.maxDay = g.foldl (fun a p => max a (dayOfMonthOf p.date)) 0 ∧
  ∀ day : ℤ, jget r.byDaySum day =
    (if (g.filter (fun p => dayOfMonthOf p.date = day)).isEmpty then none
      else some (((g.filter (fun p => dayOfMonthOf p.date = day)).map DailyPoint.value).sum))

theorem monthUpd_step (g : List DailyPoint) (p : DailyPoint) (r : MonthRec)
    (h : monthRecOK g r) : monthRecOK (g ++ [p]) (monthUpd p (some r)) := by
  obtain ⟨hs, hc, hm, hb⟩ := h
  refine ⟨?_, ?_, ?_, ?_⟩
  · simp [monthUpd, hs]
  · simp [monthUpd, hc]
  · simp [monthUpd, hm, List.foldl_append]
  · intro day
    by_cases hd : day = dayOfMonthOf p.date
    · have hset : jget (monthUpd p (some r)).byDaySum day =
          some ((jget r.byDaySum day).getD 0 + p.value) := by
        simp only [monthUpd, Option.getD_some]
        rw [hd]
        exact jget_jset_self _ _ _
      have hfp : [p].filter (fun q => dayOfMonthOf q.date = day) = [p] := by
        simp [hd.symm]
      rw [hset, hb day, List.filter_append, hfp]
      cases hge : (g.filter (fun q => dayOfMonthOf q.date = day)).isEmpty with
      | true =>
        rw [List.isEmpty_iff.mp hge]
        simp
      | false =>
        cases hq : g.filter (fun q => dayOfMonthOf q.date = day) with
        | nil => rw [hq] at hge; simp at hge
        | cons a b =>
          simp [List.sum_append]
          ring
    · have hd2 : ¬ dayOfMonthOf p.date = day := fun h => hd h.symm
      have hset : jget (monthUpd p (some r)).byDaySum day = jget r.byDaySum day := by
        simp only [monthUpd, Option.getD_some]
        exact jget_jset_ne _ _ _ _ hd
      have hfp : [p].filter (fun q => dayOfMonthOf q.date = day) = [] := by
        simp [hd2]
      rw [hset, hb day, List.filter_append, hfp, List.append_nil]

theorem monthUpd_start (p : DailyPoint) : monthRecOK [p] (monthUpd p none) := by
  refine ⟨by simp [monthUpd, emptyMonthRec], by simp [monthUpd, emptyMonthRec],
    by simp [monthUpd, emptyMonthRec], ?_⟩
  intro day
  by_cases hd : day = dayOfMonthOf p.date
  · rw [hd]
    simp [monthUpd, emptyMonthRec, jget, jset]
  · have hd2 : ¬ dayOfMonthOf p.date = day := fun h => hd h.symm
    simp [monthUpd, emptyMonthRec, jget, jset, hd2, hd]

theorem monthAccum_go :
    ∀ (g hist : List DailyPoint) (r : MonthRec), monthRecOK hist r →
      ∃ r2, optAccum monthUpd g (some r) = some r2 ∧ monthRecOK (hist ++ g) r2 := by
  intro g
  induction g with
  | nil =>
    intro hist r h
    exact ⟨r, rfl, by simpa using h⟩
  | cons p g ih =>
    intro hist r h
    have hstep := monthUpd_step hist p r h
    obtain ⟨r2, hr2, hok⟩ := ih (hist ++ [p]) (monthUpd p (some r)) hstep
    refine ⟨r2, ?_, ?_⟩
    · simpa [optAccum] using hr2
    · rwa [List.append_assoc, List.singleton_append] at hok

theorem buildMonthAggMap_get (series : List DailyPoint) (m : ℤ) :
    (monthGroup series m = [] → jget (buildMonthAggMap series) m = none) ∧
    (monthGroup series m ≠ [] →
      ∃ r, jget (buildMonthAggMap series) m = some r ∧ monthRecOK (monthGroup series m) r) := by
  have hget : jget (buildMonthAggMap series) m =
      optAccum monthUpd (monthGroup series m) none := by
    have h := accumMap_get (fun p : DailyPoint => monthIdxOf p.date) monthUpd series m
    simpa [buildMonthAggMap, monthGroup] using h
  constructor
  · intro hnil
    rw [hget, hnil]
    rfl
  · intro hne
    cases hg : monthGroup series m with
    | nil => exact absurd hg hne
    | cons p g =>
      rw [hget, hg]
      have hstart := monthUpd_start p
      obtain ⟨r2, hr2, hok⟩ := monthAccum_go g [p] (monthUpd p none) hstart
      refine ⟨r2, ?_, ?_⟩
      · simpa [optAccum] using hr2
      · simpa using hok

/-- The day numbers `1 … lim` scanned by the `sumMonthUpToDay` loop. -/
def daysTo (lim : ℤ) : List ℤ :=
  (List.range lim.toNat).map (fun i : ℕ => (i : ℤ) + 1)

/-- `sumMonthUpToDay` from ElectricityDashboard.tsx (lines 375–387): the sum of
the per-day sums for days `1 … dayLimit`, `null` for a missing month record or
when no day in that range is populated. -/
def sumMonthUpToDay (monthRec : Option MonthRec) (dayLimit : ℤ) : Option ℚ :=
  match monthRec with
  | none => none
  | some r =>
    let present := (daysTo dayLimit).filterMap (fun day => jget r.byDaySum day)
    if present.isEmpty then none else some present.sum

theorem mem_daysTo (lim d : ℤ) : d ∈ daysTo lim ↔ 1 ≤ d ∧ d ≤ lim := by
  simp only [daysTo, List.mem_map, List.mem_range]
  constructor
  · rintro ⟨i, hi, rfl⟩
    omega
  · intro hb
    exact ⟨(d - 1).toNat, by omega, by omega⟩

theorem daysTo_nodup (lim : ℤ) : (daysTo lim).Nodup := by
  refine List.Nodup.map ?_ (List.nodup_range _)
  intro a b hab
  have hab2 : (a : ℤ) + 1 = (b : ℤ) + 1 := hab
  omega

theorem sum_filter_or (g : List DailyPoint) (A B : DailyPoint → Prop) [DecidablePred A]
    [DecidablePred B] (hdisj : ∀ p, ¬(A p ∧ B p)) :
    ((g.filter (fun p => A p ∨ B p)).map DailyPoint.value).sum =
      ((g.filter (fun p => A p)).map DailyPoint.value).sum +
        ((g.filter (fun p => B p)).map DailyPoint.value).sum := by
  induction g with
  | nil => simp
  | cons p g ih =>
    have e1t : ∀ h : A p ∨ B p, List.filter (fun q => decide (A q ∨ B q)) (p :: g) =
        p :: List.filter (fun q => decide (A q ∨ B q)) g := by
      intro h
      simp [List.filter_cons, h]
    have e1f : ∀ _ : ¬ A p, ∀ _ : ¬ B p,
        List.filter (fun q => decide (A q ∨ B q)) (p :: g) =
          List.filter (fun q => decide (A q ∨ B q)) g := by
      intro h1 h2
      simp [List.filter_cons, h1, h2]
    by_cases hA : A p
    · have hB : ¬ B p := fun hb => hdisj p ⟨hA, hb⟩
      rw [e1t (Or.inl hA), List.filter_cons, List.filter_cons]
      simp only [Bool.decide_or] at ih
      simp [hA, hB, ih]
      ring
    · by_cases hB : B p
      · rw [e1t (Or.inr hB), List.filter_cons, List.filter_cons]
        simp only [Bool.decide_or] at ih
        simp [hA, hB, ih]
        ring
      · rw [e1f hA hB, List.filter_cons, List.filter_cons]
        simp only [Bool.decide_or] at ih
        simp [hA, hB, ih]

theorem length_filter_or (g : List DailyPoint) (A B : DailyPoint → Prop) [DecidablePred A]
    [DecidablePred B] (hdisj : ∀ p, ¬(A p ∧ B p)) :
    (g.filter (fun p => A p ∨ B p)).length =
      (g.filter (fun p => A p)).length + (g.filter (fun p => B p)).length := by
  induction g with
  | nil => simp
  | cons p g ih =>
    have e1t : ∀ h : A p ∨ B p, List.filter (fun q => decide (A q ∨ B q)) (p :: g) =
        p :: List.filter (fun q => decide (A q ∨ B q)) g := by
      intro h
      simp [List.filter_cons, h]
    have e1f : ∀ _ : ¬ A p, ∀ _ : ¬ B p,
        List.filter (fun q => decide (A q ∨ B q)) (p :: g) =
          List.filter (fun q => decide (A q ∨ B q)) g := by
      intro h1 h2
      simp [List.filter_cons, h1, h2]
    by_cases hA : A p
    · have hB : ¬ B p := fun hb => hdisj p ⟨hA, hb⟩
      rw [e1t (Or.inl hA), List.filter_cons, List.filter_cons]
      simp only [Bool.decide_or] at ih
      simp [hA, hB, ih]
      omega
    · by_cases hB : B p
      · rw [e1t (Or.inr hB), List.filter_cons, List.filter_cons]
        simp only [Bool.decide_or] at ih
        simp [hA, hB, ih]
        omega
      · rw [e1f hA hB, List.filter_cons, List.filter_cons]
        simp only [Bool.decide_or] at ih
        simp [hA, hB, ih]

theorem sum_groups (g : List DailyPoint) (key : DailyPoint → ℤ) :
    ∀ (days : List ℤ), days.Nodup →
      (days.map (fun d =>
        ((g.filter (fun p => key p = d)).map DailyPoint.value).sum)).sum =
      ((g.filter (fun p => key p ∈ days)).map DailyPoint.value).sum := by
  intro days
  induction days with
  | nil => simp
  | cons d ds ih =>
    intro hnd
    have hd : d ∉ ds := (List.nodup_cons.mp hnd).1
    have hnd2 : ds.Nodup := (List.nodup_cons.mp hnd).2
    have hsplit : ((g.filter (fun p => key p ∈ d :: ds)).map DailyPoint.value).sum =
        ((g.filter (fun p => key p = d)).map DailyPoint.value).sum +
          ((g.filter (fun p => key p ∈ ds)).map DailyPoint.value).sum := by
      have hcongr : g.filter (fun p => key p ∈ d :: ds) =
          g.filter (fun p => key p = d ∨ key p ∈ ds) := by
        apply List.filter_congr
        intro p _
        simp [List.mem_cons]
      rw [hcongr]
      exact sum_filter_or g _ _ (fun p hp => hd (hp.1 ▸ hp.2))
    simp only [List.map_cons, List.sum_cons, hsplit, ih hnd2]

theorem length_groups (g : List DailyPoint) (key : DailyPoint → ℤ) :
    ∀ (days : List ℤ), days.Nodup →
      (days.map (fun d => ((g.filter (fun p => key p = d)).length : ℕ))).sum =
      (g.filter (fun p => key p ∈ days)).length := by
  intro days
  induction days with
  | nil => simp
  | cons d ds ih =>
    intro hnd
    have hd : d ∉ ds := (List.nodup_cons.mp hnd).1
    have hnd2 : ds.Nodup := (List.nodup_cons.mp hnd).2
    have hsplit : (g.filter (fun p => key p ∈ d :: ds)).length =
        (g.filter (fun p => key p = d)).length + (g.filter (fun p => key p ∈ ds)).length := by
      have hcongr : g.filter (fun p => key p ∈ d :: ds) =
          g.filter (fun p => key p = d ∨ key p ∈ ds) := by
        apply List.filter_congr
        intro p _
        simp [List.mem_cons]
      rw [hcongr]
      exact length_filter_or g _ _ (fun p hp => hd (hp.1 ▸ hp.2))
    simp only [List.map_cons, List.sum_cons, hsplit, ih hnd2]

theorem sum_filterMap_opt (h : ℤ → Option ℚ) :
    ∀ (days : List ℤ), (days.filterMap h).sum = (days.map (fun d => (h d).getD 0)).sum := by
  intro days
  induction days with
  | nil => simp
  | cons d ds ih =>
    cases hd : h d with
    | none => simp [List.filterMap_cons, hd, ih]
    | some v => simp [List.filterMap_cons, hd, ih]

/-- Specification-side comparable partial-month sum: the total of the series
values lying in month `m` with day-of-month between 1 and `lim`, absent when no
such entry exists. -/
def specComparableSum (series : List DailyPoint) (m lim : ℤ) : Option ℚ :=
  let g := (monthGroup series m).filter
    (fun p => 1 ≤ dayOfMonthOf p.date ∧ dayOfMonthOf p.date ≤ lim)
  if g.isEmpty then none else some ((g.map DailyPoint.value).sum)

theorem sumMonthUpToDay_spec (series : List DailyPoint) (m lim : ℤ) :
    sumMonthUpToDay (jget (buildMonthAggMap series) m) lim = specComparableSum series m lim := by
  obtain ⟨hnil, hsome⟩ := buildMonthAggMap_get series m
  by_cases hg : monthGroup series m = []
  · rw [hnil hg]
    unfold specComparableSum
    rw [hg]
    simp [sumMonthUpToDay]
  · obtain ⟨r, hr, hOK⟩ := hsome hg
    obtain ⟨-, -, -, hbds⟩ := hOK
    rw [hr]
    simp only [sumMonthUpToDay, specComparableSum]
    have hpres : (daysTo lim).filterMap (fun day => jget r.byDaySum day) =
        (daysTo lim).filterMap (fun day =>
          if ((monthGroup series m).filter (fun p => dayOfMonthOf p.date = day)).isEmpty
          then none
          else some ((((monthGroup series m).filter
            (fun p => dayOfMonthOf p.date = day)).map DailyPoint.value).sum)) := by
      apply List.filterMap_congr
      intro d _
      exact hbds d
    rw [hpres]
    have hrefine : (monthGroup series m).filter
        (fun p => 1 ≤ dayOfMonthOf p.date ∧ dayOfMonthOf p.date ≤ lim) =
        (monthGroup series m).filter (fun p => dayOfMonthOf p.date ∈ daysTo lim) := by
      apply List.filter_congr
      intro p _
      simp [mem_daysTo]
    have hempty : ((daysTo lim).filterMap (fun day =>
        if ((monthGroup series m).filter (fun p => dayOfMonthOf p.date = day)).isEmpty
        then none
        else some ((((monthGroup series m).filter
          (fun p => dayOfMonthOf p.date = day)).map DailyPoint.value).sum))).isEmpty =
        ((monthGroup series m).filter
          (fun p => 1 ≤ dayOfMonthOf p.date ∧ dayOfMonthOf p.date ≤ lim)).isEmpty := by
      rw [hrefine]
      cases hL : ((daysTo lim).filterMap (fun day =>
          if ((monthGroup series m).filter (fun p => dayOfMonthOf p.date = day)).isEmpty
          then none
          else some ((((monthGroup series m).filter
            (fun p => dayOfMonthOf p.date = day)).map DailyPoint.value).sum))).isEmpty with
      | true =>
        rw [List.isEmpty_iff] at hL
        rw [List.filterMap_eq_nil_iff] at hL
        symm
        rw [List.isEmpty_iff, List.filter_eq_nil_iff]
        intro p hp hbp
        have hmem : dayOfMonthOf p.date ∈ daysTo lim := by simpa using hbp
        have := hL (dayOfMonthOf p.date) hmem
        by_cases hc : ((monthGroup series m).filter
            (fun q => dayOfMonthOf q.date = dayOfMonthOf p.date)).isEmpty
        · rw [List.isEmpty_iff, List.filter_eq_nil_iff] at hc
          exact hc p hp (by simp)
        · simp [hc] at this
      | false =>
        obtain ⟨x, hx⟩ := List.isEmpty_eq_false_iff_exists_mem.mp hL
        rw [List.mem_filterMap] at hx
        obtain ⟨d, hd, hopt⟩ := hx
        symm
        rw [List.isEmpty_eq_false_iff_exists_mem]
        by_cases hc : ((monthGroup series m).filter
            (fun q => dayOfMonthOf q.date = d)).isEmpty = true
        · simp [hc] at hopt
        · rw [Bool.not_eq_true, List.isEmpty_eq_false_iff_exists_mem] at hc
          obtain ⟨p, hp⟩ := hc
          rw [List.mem_filter] at hp
          refine ⟨p, ?_⟩
          rw [List.mem_filter]
          refine ⟨hp.1, ?_⟩
          have hdp : dayOfMonthOf p.date = d := by simpa using hp.2
          simp only [decide_eq_true_eq]
          rw [hdp]
          exact hd
    rw [hempty]
    cases hfin : ((monthGroup series m).filter
        (fun p => 1 ≤ dayOfMonthOf p.date ∧ dayOfMonthOf p.date ≤ lim)).isEmpty with
    | true => simp
    | false =>
      simp only [Bool.false_eq_true, if_false, Option.some.injEq]
      rw [sum_filterMap_opt]
      have hpt : ((daysTo lim).map (fun d =>
          ((if ((monthGroup series m).filter (fun p => dayOfMonthOf p.date = d)).isEmpty
            then none
            else some ((((monthGroup series m).filter
              (fun p => dayOfMonthOf p.date = d)).map DailyPoint.value).sum)) : Option ℚ).getD 0)) =
          ((daysTo lim).map (fun d =>
            (((monthGroup series m).filter
              (fun p => dayOfMonthOf p.date = d)).map DailyPoint.value).sum)) := by
        apply List.map_congr_left
        intro d _
        cases hc : ((monthGroup series m).filter (fun p => dayOfMonthOf p.date = d)).isEmpty with
        | true =>
          rw [List.isEmpty_iff] at hc
          simp [hc]
        | false => simp
      rw [hpt, sum_groups _ _ _ (daysTo_nodup lim), hrefine]

/-- An output row of `toMonthlySumComparable`. -/
structure MRow where
  month : ℤ
  value : ℚ
  max_day : ℤ
  yoy_pct : Option ℚ
  mom_pct : Option ℚ
deriving DecidableEq, Repr

/-- One output row of `toMonthlySumComparable` for month index `m`
(ElectricityDashboard.tsx lines 394–420; the construction of `out` and the
subsequent mutation loop that fills `mom_pct`/`yoy_pct` from the same month map
are fused into a single record). -/
def monthRowFor (series : List DailyPoint) (m : ℤ) : MRow :=
  let r := (jget (buildMonthAggMap series) m).getD emptyMonthRec
  { month := m
    value := r.sum
    max_day := r.maxDay
    yoy_pct := match sumMonthUpToDay (jget (buildMonthAggMap series) (m - 12)) r.maxDay with
      | some prev => growthPct r.sum prev
      | none => none
    mom_pct := match sumMonthUpToDay (jget (buildMonthAggMap series) (m - 1)) r.maxDay with
      | some prev => growthPct r.sum prev
      | none => none }

/-- `toMonthlySumComparable` from ElectricityDashboard.tsx: one row per month
present in the series, in ascending month order. -/
def toMonthlySumComparable (series : List DailyPoint) : List MRow :=
  let months := List.insertionSort (· ≤ ·) ((buildMonthAggMap series).map Prod.fst)
  months.map (monthRowFor series)

theorem foldlMax_bounds (g : List DailyPoint) :
    ∀ a : ℤ, (a ≤ g.foldl (fun b p => max b (dayOfMonthOf p.date)) a) ∧
      (∀ p ∈ g, dayOfMonthOf p.date ≤ g.foldl (fun b p => max b (dayOfMonthOf p.date)) a) := by
  induction g with
  | nil => intro a; simp
  | cons q g ih =>
    intro a
    simp only [List.foldl_cons]
    obtain ⟨h1, h2⟩ := ih (max a (dayOfMonthOf q.date))
    refine ⟨le_trans (le_max_left _ _) h1, ?_⟩
    intro p hp
    rcases List.mem_cons.mp hp with h | h
    · subst h
      exact le_trans (le_max_right _ _) h1
    · exact h2 p h

theorem foldlMax_attained (g : List DailyPoint) :
    ∀ a : ℤ, g.foldl (fun b p => max b (dayOfMonthOf p.date)) a = a ∨
      ∃ p ∈ g, g.foldl (fun b p => max b (dayOfMonthOf p.date)) a = dayOfMonthOf p.date := by
  induction g with
  | nil => intro a; simp
  | cons q g ih =>
    intro a
    simp only [List.foldl_cons]
    rcases ih (max a (dayOfMonthOf q.date)) with h | ⟨p, hp, hval⟩
    · rcases le_or_lt (dayOfMonthOf q.date) a with hle | hlt
      · left
        rw [h, max_eq_left hle]
      · right
        exact ⟨q, List.mem_cons_self _ _, by rw [h, max_eq_right (le_of_lt hlt)]⟩
    · right
      exact ⟨p, List.mem_cons_of_mem _ hp, hval⟩

/-- Claim C1: for every daily series, each row of `toMonthlySumComparable`
(sum-mode monthly aggregation) carries the month's full sum and its highest
populated day-of-month `maxDay`, and its month-over-month (resp. year-over-year)
growth is computed against the prior month's (resp. prior-year same month's)
sum restricted to days `1 … maxDay`; when the prior period has no data in that
day range the growth is `none`, not zero. -/
theorem toMonthlySumComparable_comparable_growth :
    ∀ (series : List DailyPoint) (r : MRow), r ∈ toMonthlySumComparable series →
      monthGroup series r.month ≠ [] ∧
      r.value = ((monthGroup series r.month).map DailyPoint.value).sum ∧
      (∀ p ∈ monthGroup series r.month, dayOfMonthOf p.date ≤ r.max_day) ∧
      (r.max_day = 0 ∨ ∃ p ∈ monthGroup series r.month, dayOfMonthOf p.date = r.max_day) ∧
      r.mom_pct = (match specComparableSum series (r.month - 1) r.max_day with
        | some prev => growthPct r.value prev
        | none => none) ∧
      r.yoy_pct = (match specComparableSum series (r.month - 12) r.max_day with
        | some prev => growthPct r.value prev
        | none => none) := by
  intro series r hr
  simp only [toMonthlySumComparable, List.mem_map] at hr
  obtain ⟨m, hm, rfl⟩ := hr
  rw [List.mem_insertionSort] at hm
  have hne : monthGroup series m ≠ [] := by
    simp only [buildMonthAggMap] at hm
    rw [accumMap_mem_keys_iff] at hm
    obtain ⟨p, hp, hkey⟩ := hm
    intro hnil
    have : p ∈ monthGroup series m := by
      rw [monthGroup, List.mem_filter]
      exact ⟨hp, by simpa using hkey⟩
    rw [hnil] at this
    exact absurd this (List.not_mem_nil p)
  obtain ⟨rec, hrec, hsum, hcnt, hmax, hbds⟩ :=
    (buildMonthAggMap_get series m).2 hne
  have hgetD : (jget (buildMonthAggMap series) m).getD emptyMonthRec = rec := by
    rw [hrec]
    rfl
  have hRow : monthRowFor series m =
      { month := m
        value := rec.sum
        max_day := rec.maxDay
        yoy_pct := match sumMonthUpToDay (jget (buildMonthAggMap series) (m - 12)) rec.maxDay with
          | some prev => growthPct rec.sum prev
          | none => none
        mom_pct := match sumMonthUpToDay (jget (buildMonthAggMap series) (m - 1)) rec.maxDay with
          | some prev => growthPct rec.sum prev
          | none => none } := by
    rw [monthRowFor, hgetD]
  rw [hRow]
  refine ⟨hne, by simpa using hsum, ?_, ?_, ?_, ?_⟩
  · intro p hp
    simp only
    rw [hmax]
    exact (foldlMax_bounds (monthGroup series m) 0).2 p hp
  · simp only
    rw [hmax]
    rcases foldlMax_attained (monthGroup series m) 0 with h | ⟨p, hp, hval⟩
    · exact Or.inl h
    · exact Or.inr ⟨p, hp, hval.symm⟩
  · simp only
    rw [sumMonthUpToDay_spec]
  · simp only
    rw [sumMonthUpToDay_spec]

/-- Daily series: 2024-01-03 (day 19725) value 40, 2024-01-20 (day 19742)
value 200, 2024-02-05 (day 19758) value 50.  The current month (2024-02, month
index 24289) has data through day 5 only; the prior month has data both inside
(day 3) and outside (day 20) that window. -/
def c1Series : List DailyPoint :=
  [⟨19725, 40⟩, ⟨19742, 200⟩, ⟨19758, 50⟩]

theorem c1_rows :
    toMonthlySumComparable c1Series =
      [⟨24288, 240, 20, none, none⟩, ⟨24289, 50, 5, none, some 25⟩] := by
  have hm1 : monthIdxOf 19725 = 24288 := by decide
  have hm2 : monthIdxOf 19742 = 24288 := by decide
  have hm3 : monthIdxOf 19758 = 24289 := by decide
  have hd1 : dayOfMonthOf 19725 = 3 := by decide
  have hd2 : dayOfMonthOf 19742 = 20 := by decide
  have hd3 : dayOfMonthOf 19758 = 5 := by decide
  have hmap : buildMonthAggMap c1Series =
      [(24288, ⟨240, 2, 20, [(3, 40), (20, 200)], [(3, 1), (20, 1)]⟩),
        (24289, ⟨50, 1, 5, [(5, 50)], [(5, 1)]⟩)] := by
    norm_num [buildMonthAggMap, accumMap, monthUpd, emptyMonthRec, jget, jset, c1Series,
      hm1, hm2, hm3, hd1, hd2, hd3]
  have hdays : daysTo 5 = [1, 2, 3, 4, 5] := by decide
  simp only [toMonthlySumComparable]
  rw [hmap]
  norm_num [monthRowFor, hmap, jget, jset, monthUpd, emptyMonthRec, sumMonthUpToDay, hdays,
    hm1, hm2, hm3, hd1, hd2, hd3, List.insertionSort, List.orderedInsert,
    List.filterMap_cons, growthPct, safeDiv]

/-- Witness for `toMonthlySumComparable_comparable_growth`: on `c1Series` the
2024-02 row (current month populated through day 5, sum 50) has
month-over-month growth 25% because the prior-month comparison uses only days
1–5 of 2024-01 (sum 40), not the full prior month (sum 240). -/
theorem toMonthlySumComparable_witness :
    (⟨24289, 50, 5, none, some 25⟩ : MRow) ∈ toMonthlySumComparable c1Series ∧
      monthGroup c1Series 24289 ≠ [] ∧
      specComparableSum c1Series (24289 - 1) 5 = some 40 := by
  have hmem : (⟨24289, 50, 5, none, some 25⟩ : MRow) ∈ toMonthlySumComparable c1Series := by
    rw [c1_rows]
    simp
  have h := toMonthlySumComparable_comparable_growth c1Series _ hmem
  refine ⟨hmem, h.1, ?_⟩
  have hd1 : dayOfMonthOf 19725 = 3 := by decide
  have hd2 : dayOfMonthOf 19742 = 20 := by decide
  have hm1 : monthIdxOf 19725 = 24288 := by decide
  have hm2 : monthIdxOf 19742 = 24288 := by decide
  have hm3 : monthIdxOf 19758 = 24289 := by decide
  norm_num [specComparableSum, monthGroup, c1Series, hm1, hm2, hm3, hd1, hd2]

/-! ### Date parsing (claim C3)

The two `parseInputDate` implementations are modelled on `List Char`.  The
regular expressions of the source are simple shapes — slash- or dash-separated
all-digit groups with length constraints — modelled by `splitOnCh` plus digit
and length tests.  JavaScript `Date.UTC(y, m-1, d)` never yields `NaN` for the
numeric ranges these shapes can produce, so the RTM parser's
`!Number.isNaN(d.getTime())` guard is always satisfied; the ElectricityDashboard
parser's round-trip guard (`getUTCFullYear() === yyyy && …`) holds exactly when
`100 ≤ yyyy` (`Date.UTC` maps two-digit years to `1900 + y`) and `(m, d)` is a
real calendar date (out-of-range months/days roll over and fail the
round-trip). -/

theorem chDigit_digitChar (n : ℕ) (h : n ≤ 9) : chDigit (digitChar n) = n := by
  interval_cases n <;> decide

theorem isDigitCh_digitChar (n : ℕ) (h : n ≤ 9) : isDigitCh (digitChar n) = true := by
  interval_cases n <;> decide

/-- `1 ≤ daysInMonth y m` for every year and month argument. -/
theorem one_le_daysInMonth (y m : ℤ) : 1 ≤ daysInMonth y m := by
  unfold daysInMonth
  split_ifs <;> norm_num

theorem daysInMonth_le (y m : ℤ) : daysInMonth y m ≤ 31 := by
  unfold daysInMonth
  split_ifs <;> norm_num

theorem digitsToNat_aux (l : List Char) (h : allDigits l = true) :
    ∀ a : ℕ, l.foldl (fun a c => 10 * a + chDigit c) a < (a + 1) * 10 ^ l.length := by
  induction l with
  | nil => intro a; simp
  | cons c l ih =>
    intro a
    rw [allDigits, List.all_cons, Bool.and_eq_true] at h
    have hc : chDigit c ≤ 9 := by
      have := h.1
      rw [isDigitCh, Bool.and_eq_true, decide_eq_true_eq, decide_eq_true_eq] at this
      unfold chDigit
      omega
    have hrec := ih (by rw [allDigits]; exact h.2) (10 * a + chDigit c)
    simp only [List.foldl_cons, List.length_cons]
    calc l.foldl (fun a c => 10 * a + chDigit c) (10 * a + chDigit c)
        < (10 * a + chDigit c + 1) * 10 ^ l.length := hrec
      _ ≤ ((a + 1) * 10) * 10 ^ l.length := by
          apply Nat.mul_le_mul_right
          omega
      _ = (a + 1) * 10 ^ (l.length + 1) := by ring

theorem digitsToNat_lt (l : List Char) (h : allDigits l = true) :
    digitsToNat l < 10 ^ l.length := by
  have := digitsToNat_aux l h 0
  simpa [digitsToNat] using this

/-- The canonical-valid-key predicate of the claim: a 10-character
`YYYY-MM-DD` string whose components form a real Gregorian calendar date.
This is also precisely the acceptance condition of `parseISOKey` in the source
(a `YYYY-MM-DD` regular-expression match followed by a JavaScript `Date`
validity check). -/
def validCanonicalKey (l : List Char) : Bool :=
  match l with
  | [y1, y2, y3, y4, h1, m1, m2, h2, d1, d2] =>
    h1 = '-' && h2 = '-' && allDigits [y1, y2, y3, y4, m1, m2, d1, d2] &&
    (let y := digitsToNat [y1, y2, y3, y4]
     let m := digitsToNat [m1, m2]
     let d := digitsToNat [d1, d2]
     decide (1 ≤ m) && decide (m ≤ 12) && decide (1 ≤ d) &&
       decide ((d : ℤ) ≤ daysInMonth (y : ℤ) (m : ℤ)))
  | _ => false

/-- `parseISOKey` from both dashboard files. -/
def parseISOKeyM (l : List Char) : Option (List Char) :=
  if validCanonicalKey l then some l else none

/-- The key template `${yyyy}-${pad2 mm}-${pad2 dd}` shared by the date
parsers. -/
def formatKeyED (yyyy mm dd : ℕ) : List Char :=
  reprNat4 yyyy ++ '-' :: (pad2 mm ++ '-' :: pad2 dd)

/-- The month-only key template `${yyyy}-${pad2 mm}-01`. -/
def formatKeyMonth (yyyy mm : ℕ) : List Char :=
  reprNat4 yyyy ++ '-' :: (pad2 mm ++ '-' :: ['0', '1'])

theorem reprNat4_eq_pad4 (n : ℕ) (h : 1000 ≤ n) : reprNat4 n = pad4 n := by
  unfold reprNat4
  rw [if_neg (by omega), if_neg (by omega), if_neg (by omega)]

theorem reprNat4_length3 (n : ℕ) (h1 : 100 ≤ n) (h2 : n ≤ 999) :
    (reprNat4 n).length = 3 := by
  unfold reprNat4
  rw [if_neg (by omega), if_neg (by omega), if_pos (by omega)]
  rfl

theorem decode2 (n : ℕ) (h : n ≤ 99) : digitsToNat (pad2 n) = n := by
  unfold pad2 digitsToNat
  simp only [List.foldl_cons, List.foldl_nil]
  rw [chDigit_digitChar _ (by omega), chDigit_digitChar _ (by omega)]
  omega

theorem decode4 (n : ℕ) (h : n ≤ 9999) : digitsToNat (pad4 n) = n := by
  unfold pad4 digitsToNat
  simp only [List.foldl_cons, List.foldl_nil]
  rw [chDigit_digitChar _ (by omega), chDigit_digitChar _ (by omega),
    chDigit_digitChar _ (by omega), chDigit_digitChar _ (by omega)]
  omega

theorem validCanonicalKey_format (y m d : ℕ) (hy : 1000 ≤ y) (hy2 : y ≤ 9999)
    (hm : 1 ≤ m) (hm2 : m ≤ 12) (hd : 1 ≤ d)
    (hd2 : (d : ℤ) ≤ daysInMonth (y : ℤ) (m : ℤ)) :
    validCanonicalKey (formatKeyED y m d) = true := by
  have hd99 : d ≤ 99 := by
    have h31 := daysInMonth_le (y : ℤ) (m : ℤ)
    omega
  have hshape : formatKeyED y m d =
      [digitChar (y / 1000 % 10), digitChar (y / 100 % 10), digitChar (y / 10 % 10),
        digitChar (y % 10), '-', digitChar (m / 10 % 10), digitChar (m % 10), '-',
        digitChar (d / 10 % 10), digitChar (d % 10)] := by
    rw [formatKeyED, reprNat4_eq_pad4 y hy]
    rfl
  have hdig : allDigits [digitChar (y / 1000 % 10), digitChar (y / 100 % 10),
      digitChar (y / 10 % 10), digitChar (y % 10), digitChar (m / 10 % 10),
      digitChar (m % 10), digitChar (d / 10 % 10), digitChar (d % 10)] = true := by
    unfold allDigits
    simp only [List.all_cons, List.all_nil, Bool.and_eq_true]
    refine ⟨isDigitCh_digitChar _ (by omega), isDigitCh_digitChar _ (by omega),
      isDigitCh_digitChar _ (by omega), isDigitCh_digitChar _ (by omega),
      isDigitCh_digitChar _ (by omega), isDigitCh_digitChar _ (by omega),
      isDigitCh_digitChar _ (by omega), ⟨isDigitCh_digitChar _ (by omega), trivial⟩⟩
  have hy4 : digitsToNat [digitChar (y / 1000 % 10), digitChar (y / 100 % 10),
      digitChar (y / 10 % 10), digitChar (y % 10)] = y := decode4 y hy2
  have hm2d : digitsToNat [digitChar (m / 10 % 10), digitChar (m % 10)] = m :=
    decode2 m (by omega)
  have hd2d : digitsToNat [digitChar (d / 10 % 10), digitChar (d % 10)] = d :=
    decode2 d hd99
  rw [hshape]
  simp only [validCanonicalKey, Bool.and_eq_true, decide_eq_true_eq]
  simp only [hy4, hm2d, hd2d, hdig]
  simp only [and_true, true_and]
  omega

theorem validCanonicalKey_formatMonth (y m : ℕ) (hy : 1000 ≤ y) (hy2 : y ≤ 9999)
    (hm : 1 ≤ m) (hm2 : m ≤ 12) :
    validCanonicalKey (formatKeyMonth y m) = true := by
  have heq : formatKeyMonth y m = formatKeyED y m 1 := rfl
  rw [heq]
  exact validCanonicalKey_format y m 1 hy hy2 hm hm2 (le_refl 1) (one_le_daysInMonth _ _)

/-- `\d{1,2}` group length constraint. -/
def lenIn12 (a : List Char) : Bool :=
  decide (1 ≤ a.length) && decide (a.length ≤ 2)

/-- The shared `DD`/`MM` + year core of the ElectricityDashboard
`parseInputDate` branches: build the key when the JavaScript round-trip check
succeeds (`100 ≤ yyyy` and a real calendar day). -/
def dmyCore (a b : List Char) (yyyy : ℕ) : Option (List Char) :=
  if 100 ≤ yyyy ∧ 1 ≤ digitsToNat b ∧ digitsToNat b ≤ 12 ∧ 1 ≤ digitsToNat a ∧
      (digitsToNat a : ℤ) ≤ daysInMonth (yyyy : ℤ) (digitsToNat b : ℤ)
  then some (formatKeyED yyyy (digitsToNat b) (digitsToNat a)) else none

/-- ElectricityDashboard `parseInputDate`, two-slash shapes
(`DD/MM/YYYY`, `DD/MM/YY`). -/
def edSlash3 (a b c : List Char) : Option (List Char) :=
  if allDigits a && allDigits b && allDigits c && lenIn12 a && lenIn12 b then
    if c.length = 4 then dmyCore a b (digitsToNat c)
    else if c.length = 2 then dmyCore a b (2000 + digitsToNat c)
    else none
  else none

/-- ElectricityDashboard `parseInputDate`, single-slash shapes
(`MM/YYYY`, `MM/YY`, normalized to the first day of the month). -/
def edSlash2 (a b : List Char) : Option (List Char) :=
  if allDigits a && allDigits b && lenIn12 a then
    if b.length = 4 then
      if 1 ≤ digitsToNat a ∧ digitsToNat a ≤ 12 ∧ 1900 ≤ digitsToNat b then
        some (formatKeyMonth (digitsToNat b) (digitsToNat a))
      else none
    else if b.length = 2 then
      if 1 ≤ digitsToNat a ∧ digitsToNat a ≤ 12 then
        some (formatKeyMonth (2000 + digitsToNat b) (digitsToNat a))
      else none
    else none
  else none

/-- ElectricityDashboard `parseInputDate`, dash shapes (`DD-MM-YYYY`,
`DD-MM-YY`, then the ISO `YYYY-MM-DD` fallthrough on `parseISOKey`). -/
def edDash3 (a b c t : List Char) : Option (List Char) :=
  if allDigits a && allDigits b && allDigits c then
    if lenIn12 a && lenIn12 b && decide (c.length = 4) then dmyCore a b (digitsToNat c)
    else if lenIn12 a && lenIn12 b && decide (c.length = 2) then
      dmyCore a b (2000 + digitsToNat c)
    else if a.length = 4 ∧ b.length = 2 ∧ c.length = 2 then parseISOKeyM t
    else none
  else none

/-- `parseInputDate` from ElectricityDashboard.tsx (lines 38–142), restricted
to string inputs (its only accepted input type). -/
def parseInputDateED (s : List Char) : Option (List Char) :=
  match splitOnCh '/' (trimChars s) with
  | [a, b, c] => edSlash3 a b c
  | [a, b] => edSlash2 a b
  | [_] =>
    match splitOnCh '-' (trimChars s) with
    | [a2, b2, c2] => edDash3 a2 b2 c2 (trimChars s)
    | _ => none
  | _ => none

/-- RTMVsStocksDailyCard `parseInputDate`, two-slash shapes: the only guard is
`!Number.isNaN(d.getTime())`, which always holds for these numeric ranges, so
the padded key is returned without any calendar validation. -/
def rtmSlash3 (a b c : List Char) : Option (List Char) :=
  if allDigits a && allDigits b && allDigits c && lenIn12 a && lenIn12 b then
    if c.length = 4 then some (formatKeyED (digitsToNat c) (digitsToNat b) (digitsToNat a))
    else if c.length = 2 then
      some (formatKeyED (2000 + digitsToNat c) (digitsToNat b) (digitsToNat a))
    else none
  else none

/-- RTMVsStocksDailyCard `parseInputDate`, dash shapes. -/
def rtmDash3 (a b c t : List Char) : Option (List Char) :=
  if allDigits a && allDigits b && allDigits c then
    if lenIn12 a && lenIn12 b && decide (c.length = 4) then
      some (formatKeyED (digitsToNat c) (digitsToNat b) (digitsToNat a))
    else if lenIn12 a && lenIn12 b && decide (c.length = 2) then
      some (formatKeyED (2000 + digitsToNat c) (digitsToNat b) (digitsToNat a))
    else if a.length = 4 ∧ b.length = 2 ∧ c.length = 2 then parseISOKeyM t
    else none
  else none

/-- `parseInputDate` from RTMVsStocksDailyCard.tsx (lines 54–113), restricted
to string inputs (the `Date`-object and spreadsheet-serial branches convert
through the host date library and are out of scope of this claim's
counterexample). -/
def parseInputDateRtm (s : List Char) : Option (List Char) :=
  if (trimChars s).isEmpty then none
  else
    match splitOnCh '/' (trimChars s) with
    | [a, b, c] => rtmSlash3 a b c
    | [_] =>
      match splitOnCh '-' (trimChars s) with
      | [a2, b2, c2] => rtmDash3 a2 b2 c2 (trimChars s)
      | _ => none
    | _ => none

theorem dmyCore_valid (a b : List Char) (yyyy : ℕ) (hy2 : yyyy ≤ 9999) (k : List Char)
    (h : dmyCore a b yyyy = some k) :
    validCanonicalKey k = true ∨ k.length = 9 := by
  unfold dmyCore at h
  split at h
  case isTrue hcond =>
    obtain ⟨h100, hm1, hm2, hd1, hd2⟩ := hcond
    rw [Option.some.injEq] at h
    subst h
    by_cases hy : 1000 ≤ yyyy
    · exact Or.inl (validCanonicalKey_format _ _ _ hy hy2 hm1 hm2 hd1 hd2)
    · right
      have hlen3 : (reprNat4 yyyy).length = 3 := reprNat4_length3 yyyy h100 (by omega)
      simp [formatKeyED, pad2, hlen3]
  case isFalse => exact absurd h (by simp)

theorem edSlash3_valid (a b c k : List Char) (h : edSlash3 a b c = some k) :
    validCanonicalKey k = true ∨ k.length = 9 := by
  unfold edSlash3 at h
  split at h
  case isFalse => exact absurd h (by simp)
  case isTrue hg =>
    simp only [Bool.and_eq_true] at hg
    split at h
    case isTrue h4 =>
      have hbound : digitsToNat c < 10 ^ c.length := digitsToNat_lt c hg.1.1.2
      rw [h4] at hbound
      exact dmyCore_valid a b _ (by omega) k h
    case isFalse =>
      split at h
      case isTrue h2 =>
        have hbound : digitsToNat c < 10 ^ c.length := digitsToNat_lt c hg.1.1.2
        rw [h2] at hbound
        exact dmyCore_valid a b _ (by omega) k h
      case isFalse => exact absurd h (by simp)

theorem edSlash2_valid (a b k : List Char) (h : edSlash2 a b = some k) :
    validCanonicalKey k = true := by
  unfold edSlash2 at h
  split at h
  case isFalse => exact absurd h (by simp)
  case isTrue hg =>
    simp only [Bool.and_eq_true] at hg
    split at h
    case isTrue h4 =>
      split at h
      case isFalse => exact absurd h (by simp)
      case isTrue hcond =>
        obtain ⟨hm1, hm2, h1900⟩ := hcond
        rw [Option.some.injEq] at h
        subst h
        have hbound : digitsToNat b < 10 ^ b.length := digitsToNat_lt b hg.1.2
        rw [h4] at hbound
        exact validCanonicalKey_formatMonth _ _ (by omega) (by omega) hm1 hm2
    case isFalse =>
      split at h
      case isFalse => exact absurd h (by simp)
      case isTrue h2 =>
        split at h
        case isFalse => exact absurd h (by simp)
        case isTrue hcond =>
          obtain ⟨hm1, hm2⟩ := hcond
          rw [Option.some.injEq] at h
          subst h
          have hbound : digitsToNat b < 10 ^ b.length := digitsToNat_lt b hg.1.2
          rw [h2] at hbound
          exact validCanonicalKey_formatMonth _ _ (by omega) (by omega) hm1 hm2

theorem edDash3_valid (a b c t k : List Char) (h : edDash3 a b c t = some k) :
    validCanonicalKey k = true ∨ k.length = 9 := by
  unfold edDash3 at h
  split at h
  case isFalse => exact absurd h (by simp)
  case isTrue hg =>
    simp only [Bool.and_eq_true] at hg
    split at h
    case isTrue h4 =>
      simp only [Bool.and_eq_true, decide_eq_true_eq] at h4
      have hbound : digitsToNat c < 10 ^ c.length := digitsToNat_lt c hg.2
      rw [h4.2] at hbound
      exact dmyCore_valid a b _ (by omega) k h
    case isFalse =>
      split at h
      case isTrue h2 =>
        simp only [Bool.and_eq_true, decide_eq_true_eq] at h2
        have hbound : digitsToNat c < 10 ^ c.length := digitsToNat_lt c hg.2
        rw [h2.2] at hbound
        exact dmyCore_valid a b _ (by omega) k h
      case isFalse =>
        split at h
        case isTrue =>
          unfold parseISOKeyM at h
          split at h
          case isTrue hv =>
            rw [Option.some.injEq] at h
            subst h
            exact Or.inl hv
          case isFalse => exact absurd h (by simp)
        case isFalse => exact absurd h (by simp)

/-- Claim C3, amended: every string accepted by the ElectricityDashboard
`parseInputDate` yields a key that is a valid canonical Gregorian
`YYYY-MM-DD` — never an impossible day such as February 31 — except that a
four-digit source year in 100–999 is rendered unpadded (a 9-character key);
and the ISO path `parseISOKey` (shared by both dashboards) accepts only valid
canonical keys.  The RTMVsStocksDailyCard `parseInputDate`, by contrast, skips
calendar validation for slash/dash inputs (see the counterexample). -/
theorem parseInputDate_valid_keys :
    (∀ s k : List Char, parseInputDateED s = some k →
      validCanonicalKey k = true ∨ k.length = 9) ∧
    (∀ s k : List Char, parseISOKeyM s = some k → validCanonicalKey k = true) := by
  constructor
  · intro s k h
    unfold parseInputDateED at h
    split at h
    · exact edSlash3_valid _ _ _ _ h
    · exact Or.inl (edSlash2_valid _ _ _ h)
    · split at h
      · exact edDash3_valid _ _ _ _ _ h
      · exact absurd h (by simp)
    · exact absurd h (by simp)
  · intro s k h
    unfold parseISOKeyM at h
    split at h
    case isTrue hv =>
      rw [Option.some.injEq] at h
      subst h
      exact hv
    case isFalse => exact absurd h (by simp)

/-- Claim C3, counterexample: the RTMVsStocksDailyCard date parser accepts
`31/02/2024` — day 31 of February — and returns the key `2024-02-31`, which
does not denote a valid Gregorian calendar date. -/
theorem parseInputDateRtm_invalid_key :
    parseInputDateRtm ("31/02/2024".data) = some ("2024-02-31".data) ∧
      validCanonicalKey ("2024-02-31".data) = false := by
  refine ⟨by decide, by decide⟩

/-- Witness for `parseInputDate_valid_keys`: `05/03/2024` parses to the valid
canonical key `2024-03-05`. -/
theorem parseInputDate_valid_keys_witness :
    parseInputDateED ("05/03/2024".data) = some ("2024-03-05".data) ∧
      (validCanonicalKey ("2024-03-05".data) = true ∨ ("2024-03-05".data).length = 9) := by
  have hp : parseInputDateED ("05/03/2024".data) = some ("2024-03-05".data) := by decide
  exact ⟨hp, parseInputDate_valid_keys.1 _ _ hp⟩

/-! ### CSV ingestion (claims C8 and C10) -/

/-- Model of `text.split(/\r?\n/)`: split on newlines, consuming a carriage
return immediately before each newline. -/
def splitLines : List Char → List (List Char)
  | [] => [[]]
  | '\r' :: '\n' :: rest => [] :: splitLines rest
  | c :: rest =>
    match splitLines rest with
    | [] => [[c]]
    | g :: gs => if c = '\n' then [] :: g :: gs else (c :: g) :: gs

/-- ASCII lower-casing (the headers this dashboard reads are ASCII). -/
def lowerCh (c : Char) : Char :=
  if 65 ≤ c.toNat ∧ c.toNat ≤ 90 then Char.ofNat (c.toNat + 32) else c

def toLowerL (l : List Char) : List Char :=
  l.map lowerCh

def isPrefixL : List Char → List Char → Bool
  | [], _ => true
  | _ :: _, [] => false
  | a :: as, b :: bs => a = b && isPrefixL as bs

/-- Model of `String.prototype.includes`. -/
def containsSub (n : List Char) : List Char → Bool
  | [] => isPrefixL n []
  | c :: rest => isPrefixL n (c :: rest) || containsSub n rest

/-- `normalizeKey` from ElectricityDashboard.tsx: trim, lower-case, strip all
whitespace, normalize en/em dashes to hyphens. -/
def normKey (l : List Char) : List Char :=
  ((toLowerL (trimChars l)).filter (fun c => ¬ isWSCh c)).map
    (fun c => if c = '–' ∨ c = '—' then '-' else c)

def idxOfL {α : Type} [DecidableEq α] : List α → α → Option ℕ
  | [], _ => none
  | x :: xs, a => if x = a then some 0 else (idxOfL xs a).map (· + 1)

/-- Model of JavaScript `Number()` restricted to optionally signed decimal
literals, the forms occurring in these CSV files (`Number` also accepts
hexadecimal and exponent notations, which no caller here produces); `none`
models a non-finite result. -/
def jsNumUnsigned (l : List Char) : Option ℚ :=
  match splitOnCh '.' l with
  | [a] => if ¬ a.isEmpty ∧ allDigits a then some ((digitsToNat a : ℚ)) else none
  | [a, b] =>
    if (¬ a.isEmpty ∨ ¬ b.isEmpty) ∧ allDigits a ∧ allDigits b then
      some ((digitsToNat a : ℚ) + (digitsToNat b : ℚ) / (10 : ℚ) ^ b.length)
    else none
  | _ => none

def jsNumber (l : List Char) : Option ℚ :=
  match trimChars l with
  | [] => some 0
  | '-' :: rest => (jsNumUnsigned rest).map (fun q => -q)
  | '+' :: rest => jsNumUnsigned rest
  | t => jsNumUnsigned t

/-- The row list of `csvParse` (ElectricityDashboard.tsx lines 262–271):
non-empty trimmed lines, split on commas into trimmed fields, keeping only
lines with at least two fields. -/
def csvRows (lines : List (List Char)) : List (List (List Char)) :=
  (((lines.map trimChars).filter (fun l => ¬ l.isEmpty)).map
    (fun line => (splitOnCh ',' line).map trimChars)).filter
    (fun cols => 2 ≤ cols.length)

/-- Header detection: the first row's first field contains `date`
(case-insensitively). -/
def csvHasHeader (rows : List (List (List Char))) : Bool :=
  match rows with
  | [] => false
  | r :: _ => containsSub ("date".data) (toLowerL (r.headD []))

/-- Value-column resolution: normalized-header match, else index 1. -/
def csvValueIdx (rows : List (List (List Char))) (valueKey : List Char) : ℕ :=
  if csvHasHeader rows then
    match rows with
    | [] => 1
    | r :: _ =>
      match idxOfL (r.map normKey) (normKey valueKey) with
      | some i => i
      | none => 1
  else 1

def csvDataRows (rows : List (List (List Char))) : List (List (List Char)) :=
  if csvHasHeader rows then rows.tail else rows

/-- Decimal rendering of a natural number (fuel-based). -/
def natReprAux : ℕ → ℕ → List Char
  | 0, _ => []
  | fuel + 1, n => if n < 10 then [digitChar n] else natReprAux fuel (n / 10) ++ [digitChar (n % 10)]

def natRepr (n : ℕ) : List Char :=
  natReprAux (n + 1) n

def quoteCh : Char :=
  Char.ofNat 39

/-- The per-row parse of `csvParse`: the date from field 0, the number from the
value field (with thousands-separator commas stripped); `none` when either
fails. -/
def csvRowPoint (valueIdx : ℕ) (row : List (List Char)) : Option (List Char × ℚ) :=
  match parseInputDateED (row.headD []) with
  | none => none
  | some date =>
    match jsNumber (((row.get? valueIdx).getD ((row.get? 1).getD [])).filter
        (fun c => c ≠ ',')) with
    | none => none
    | some v => some (date, v)

/-- The row loop of `csvParse` (lines 292–309): a failing row contributes one
`Row <i+1>: …` message and is skipped; parsing continues with the next row. -/
def csvLoop (valueIdx : ℕ) : List (List (List Char)) → ℕ →
    List (List Char × ℚ) × List (List Char)
  | [], _ => ([], [])
  | row :: rest, i =>
    match parseInputDateED (row.headD []) with
    | none =>
      let r := csvLoop valueIdx rest (i + 1)
      (r.1, ("Row ".data ++ natRepr (i + 1) ++ ": invalid date ".data ++ [quoteCh] ++
        row.headD [] ++ [quoteCh] ++ " (expected DD/MM/YYYY)".data) :: r.2)
    | some date =>
      match jsNumber (((row.get? valueIdx).getD ((row.get? 1).getD [])).filter
          (fun c => c ≠ ',')) with
      | none =>
        let r := csvLoop valueIdx rest (i + 1)
        (r.1, ("Row ".data ++ natRepr (i + 1) ++ ": invalid value ".data ++ [quoteCh] ++
          ((row.get? valueIdx).getD ((row.get? 1).getD [])) ++ [quoteCh]) :: r.2)
      | some v =>
        let r := csvLoop valueIdx rest (i + 1)
        ((date, v) :: r.1, r.2)

/-- `csvParse` from ElectricityDashboard.tsx (lines 261–312) on a pre-split
line list. -/
def csvParseLines (lines : List (List Char)) (valueKey : List Char) :
    List (List Char × ℚ) × List (List Char) :=
  let rows := csvRows lines
  if rows.isEmpty then ([], [])
  else csvLoop (csvValueIdx rows valueKey) (csvDataRows rows) 0

/-- `csvParse` from ElectricityDashboard.tsx on the raw text. -/
def csvParse (text : List Char) (valueKey : List Char) :
    List (List Char × ℚ) × List (List Char) :=
  csvParseLines (splitLines text) valueKey

theorem csvLoop_spec (valueIdx : ℕ) :
    ∀ (rows : List (List (List Char))) (i : ℕ),
      (csvLoop valueIdx rows i).1 = rows.filterMap (csvRowPoint valueIdx) ∧
      (csvLoop valueIdx rows i).2.length =
        (rows.filter (fun row => (csvRowPoint valueIdx row).isNone)).length := by
  intro rows
  induction rows with
  | nil => intro i; simp [csvLoop]
  | cons row rest ih =>
    intro i
    obtain ⟨ih1, ih2⟩ := ih (i + 1)
    unfold csvLoop
    cases hd : parseInputDateED (row.headD []) with
    | none =>
      have hrp : csvRowPoint valueIdx row = none := by
        unfold csvRowPoint
        rw [hd]
      simp [List.filterMap_cons, List.filter_cons, hrp, ih1, ih2]
    | some date =>
      cases hv : jsNumber (((row.get? valueIdx).getD ((row.get? 1).getD [])).filter
          (fun c => c ≠ ',')) with
      | none =>
        have hrp : csvRowPoint valueIdx row = none := by
          unfold csvRowPoint
          rw [hd, hv]
        simp [List.filterMap_cons, List.filter_cons, hrp, ih1, ih2]
      | some v =>
        have hrp : csvRowPoint valueIdx row = some (date, v) := by
          unfold csvRowPoint
          rw [hd, hv]
        simp [List.filterMap_cons, List.filter_cons, hrp, ih1, ih2]

theorem length_filterMap_add_bad {α β : Type} (f : α → Option β) :
    ∀ l : List α,
      (l.filterMap f).length + (l.filter (fun x => (f x).isNone)).length = l.length := by
  intro l
  induction l with
  | nil => simp
  | cons x xs ih =>
    cases hx : f x with
    | none => simp [List.filterMap_cons, List.filter_cons, hx, ih]; omega
    | some y => simp [List.filterMap_cons, List.filter_cons, hx, ih]; omega

/-- Claim C8: every data row whose date fails to parse or whose value is not a
finite number is excluded from the parsed series and contributes exactly one
error message, while all other rows are parsed in order — a bad row never
aborts ingestion or drops its neighbours (the parsed output is the `filterMap`
of the per-row parse over all data rows, and the error count plus the parsed
count equals the data-row count). -/
theorem csvParse_per_row_errors :
    ∀ (text valueKey : List Char),
      (csvParse text valueKey).1 =
        (csvDataRows (csvRows (splitLines text))).filterMap
          (csvRowPoint (csvValueIdx (csvRows (splitLines text)) valueKey)) ∧
      (csvParse text valueKey).2.length =
        ((csvDataRows (csvRows (splitLines text))).filter
          (fun row => (csvRowPoint (csvValueIdx (csvRows (splitLines text)) valueKey)
            row).isNone)).length ∧
      (csvParse text valueKey).1.length + (csvParse text valueKey).2.length =
        (csvDataRows (csvRows (splitLines text))).length := by
  intro text valueKey
  unfold csvParse csvParseLines
  cases hrows : (csvRows (splitLines text)).isEmpty with
  | true =>
    have hnil : csvRows (splitLines text) = [] := List.isEmpty_iff.mp hrows
    simp [hnil, csvDataRows, csvHasHeader]
  | false =>
    simp only [hrows, Bool.false_eq_true, if_false]
    obtain ⟨h1, h2⟩ := csvLoop_spec (csvValueIdx (csvRows (splitLines text)) valueKey)
      (csvDataRows (csvRows (splitLines text))) 0
    refine ⟨h1, h2, ?_⟩
    rw [h1, h2]
    exact length_filterMap_add_bad _ _

/-- Claim C10: a line that, after trimming, has fewer than two comma-separated
fields is discarded before row parsing: removing it from the input changes
nothing — it contributes neither a data point nor an error message. -/
theorem csvParse_short_line_dropped :
    ∀ (pre post : List (List Char)) (l valueKey : List Char),
      ((splitOnCh ',' (trimChars l)).map trimChars).length < 2 →
      csvParseLines (pre ++ l :: post) valueKey = csvParseLines (pre ++ post) valueKey := by
  intro pre post l valueKey hlen
  have hrows : csvRows (pre ++ l :: post) = csvRows (pre ++ post) := by
    unfold csvRows
    cases hemp : (trimChars l).isEmpty with
    | true =>
      have : trimChars l = [] := List.isEmpty_iff.mp hemp
      simp [List.map_append, List.filter_append, this]
    | false =>
      have hnot : ¬ (2 ≤ ((splitOnCh ',' (trimChars l)).map trimChars).length) := by omega
      have hne : ¬ (trimChars l = []) := by
        intro h0
        rw [h0] at hemp
        simp at hemp
      simp [List.map_append, List.filter_append, hne, List.map_cons, List.filter_cons, hnot]
      simpa using hlen
  unfold csvParseLines
  rw [hrows]

/-- Witness for `csvParse_short_line_dropped`: the single-field line
`justonefield` is silently dropped. -/
theorem csvParse_short_line_dropped_witness :
    ((splitOnCh ',' (trimChars ("justonefield".data))).map trimChars).length < 2 ∧
      csvParseLines (["18/12/2025,10".data] ++ "justonefield".data :: []) ("units".data) =
        csvParseLines (["18/12/2025,10".data] ++ []) ("units".data) := by
  refine ⟨by decide, ?_⟩
  exact csvParse_short_line_dropped ["18/12/2025,10".data] [] ("justonefield".data)
    ("units".data) (by decide)

/-! ### Fiscal-year aggregation (claim C6) -/

/-- `fyLabelFromIso` in `yearlyFYRows` (ElectricityDashboard.tsx lines
1250–1255): a date with month ≥ 4 belongs to the fiscal year ending in the
next calendar year. -/
def fyEndYearOf (z : ℤ) : ℤ :=
  if 4 ≤ monthNumOf z then yearOf z + 1 else yearOf z

/-- The numeric part of the fiscal label: the source renders `FY` followed by
`String(fyEndYear).slice(2)` and reads the number back with
`Number(fy.slice(2))`, which for end years 2000–2099 equals
`fyEndYear - 2000`; the embedding keys the fiscal maps by this number. -/
def fyYYOf (z : ℤ) : ℤ := fyEndYearOf z - 2000

/-- The `fySum` map of `yearlyFYRows`
(`fySum.set(fy, (fySum.get(fy) || 0) + d.value)`). -/
def fySumMap (series : List DailyPoint) : List (ℤ × ℚ) :=
  accumMap (fun p => fyYYOf p.date) (fun p acc => acc.getD 0 + p.value) series

/-- The `fyCount` map of `yearlyFYRows`. -/
def fyCountMap (series : List DailyPoint) : List (ℤ × ℕ) :=
  accumMap (fun p => fyYYOf p.date)
    (fun (_ : DailyPoint) (acc : Option ℕ) => acc.getD 0 + 1) series

/-- The update step of the `fyMaxDate` map: the sentinel `"0000-00-00"` sorts
below every canonical key, so an absent entry is replaced outright and a
present one only by a strictly larger date. -/
def fyMaxUpd (p : DailyPoint) (acc : Option ℤ) : ℤ :=
  match acc with
  | none => p.date
  | some mx => if mx < p.date then p.date else mx

/-- The `fyMaxDate` map of `yearlyFYRows`. -/
def fyMaxDateMap (series : List DailyPoint) : List (ℤ × ℤ) :=
  accumMap (fun p => fyYYOf p.date) fyMaxUpd series

/-- `dailyLookup` (ElectricityDashboard.tsx line 861):
`new Map(sortedDaily.map(d => [d.date, d.value]))`; the `Map` constructor sets
the entries in order, a later duplicate key overwriting an earlier one. -/
def dailyLookupMap (series : List DailyPoint) : List (ℤ × ℚ) :=
  accumMap (fun p => p.date) (fun (p : DailyPoint) (_ : Option ℚ) => p.value) series

/-- `fyStartIsoFromFYLabel`: April 1 of the calendar year before the fiscal
end year. -/
def fyStartDayOf (yy : ℤ) : ℤ := civilToDay (2000 + yy - 1) 4 1

/-- The mode selection `yearlyFYRows` applies to a `sumCountInclusive` result:
the (possibly `null`) sum in sum mode; in average mode `sum / count`, guarded
by `sum != null && count`. -/
def modeVal (isSum : Bool) (sc : Option ℚ × ℕ) : Option ℚ :=
  if isSum then sc.1
  else
    match sc.1 with
    | some s => if sc.2 = 0 then none else some (s / (sc.2 : ℚ))
    | none => none

/-- An output row of `yearlyFYRows`, the fiscal label kept as its numeric
part. -/
structure FYRow where
  fy : ℤ
  value : ℚ
  yoy_pct : Option ℚ
deriving DecidableEq, Repr

/-- The `curr` value of a `yearlyFYRows` row: the full fiscal-year sum, or the
mean in average mode. -/
def fyCurrVal (series : List DailyPoint) (isSum : Bool) (yy : ℤ) : ℚ :=
  if isSum then (jget (fySumMap series) yy).getD 0
  else (jget (fySumMap series) yy).getD 0 / (((jget (fyCountMap series) yy).getD 0 : ℕ) : ℚ)

/-- The `prev` full-prior-year value of a `yearlyFYRows` row
(`prevSum != null && prevCnt ? … : null`). -/
def fyPrevVal (series : List DailyPoint) (isSum : Bool) (yy : ℤ) : Option ℚ :=
  match jget (fySumMap series) yy, jget (fyCountMap series) yy with
  | some ps, some pc => if pc = 0 then none else some (if isSum then ps else ps / (pc : ℚ))
  | _, _ => none

/-- One output row of `yearlyFYRows` for fiscal label `yy`
(ElectricityDashboard.tsx lines 1305–1352): the year-over-year comparison
requires prior-year data; a complete fiscal year (latest date at or past
March 31 of the end year) compares full-year values, an incomplete one
compares `sumCountInclusive` windows, the prior window ending at the latest
date shifted back one calendar year. -/
def fyRowFor (series : List DailyPoint) (isSum : Bool) (yy : ℤ) : FYRow :=
  { fy := yy
    value := fyCurrVal series isSum yy
    yoy_pct :=
      match jget (fySumMap series) (yy - 1), jget (fyCountMap series) (yy - 1) with
      | some _, some pc =>
        if pc = 0 then none
        else if civilToDay (2000 + yy) 3 31 ≤ (jget (fyMaxDateMap series) yy).getD 0 then
          match fyPrevVal series isSum (yy - 1) with
          | some pv => growthPct (fyCurrVal series isSum yy) pv
          | none => none
        else
          match
            modeVal isSum (sumCountRangeInclusive (jget (dailyLookupMap series))
              (fyStartDayOf yy) ((jget (fyMaxDateMap series) yy).getD 0)),
            modeVal isSum (sumCountRangeInclusive (jget (dailyLookupMap series))
              (fyStartDayOf (yy - 1))
              (isoAddYears ((jget (fyMaxDateMap series) yy).getD 0) (-1)))
          with
          | some cv, some pv => growthPct cv pv
          | _, _ => none
      | _, _ => none }

/-- `yearlyFYRows` from ElectricityDashboard.tsx (lines 1243–1353): one row
per fiscal label present in the data, in increasing label order. -/
def yearlyFYRows (series : List DailyPoint) (isSum : Bool) : List FYRow :=
  (List.insertionSort (· ≤ ·) ((fySumMap series).map Prod.fst)).map (fyRowFor series isSum)

/-- Specification-side group: the days of fiscal year `yy`. -/
def fyGroup (series : List DailyPoint) (yy : ℤ) : List DailyPoint :=
  series.filter (fun p => fyYYOf p.date = yy)

/-- Specification-side full fiscal-year value: sum (or mean) over the group,
absent when the group is empty. -/
def specFyVal (series : List DailyPoint) (isSum : Bool) (yy : ℤ) : Option ℚ :=
  if (fyGroup series yy).isEmpty then none
  else
    some (if isSum then ((fyGroup series yy).map DailyPoint.value).sum
      else ((fyGroup series yy).map DailyPoint.value).sum / ((fyGroup series yy).length : ℚ))

/-- Specification-side inclusive range value over the series: sum (or mean) of
the values with date in `[a, b]`, absent when no such entry exists. -/
def specRangeVal (series : List DailyPoint) (isSum : Bool) (a b : ℤ) : Option ℚ :=
  if (series.filter (fun p => a ≤ p.date ∧ p.date ≤ b)).isEmpty then none
  else
    some (if isSum then
        ((series.filter (fun p => a ≤ p.date ∧ p.date ≤ b)).map DailyPoint.value).sum
      else ((series.filter (fun p => a ≤ p.date ∧ p.date ≤ b)).map DailyPoint.value).sum /
        ((series.filter (fun p => a ≤ p.date ∧ p.date ≤ b)).length : ℚ))

theorem fySumMap_get (series : List DailyPoint) (yy : ℤ) :
    jget (fySumMap series) yy =
      (if (fyGroup series yy).isEmpty then none
        else some (((fyGroup series yy).map DailyPoint.value).sum)) := by
  have h := accumMap_sum_get (fun p : DailyPoint => fyYYOf p.date)
    (fun p : DailyPoint => p.value) series yy
  simpa [fySumMap, fyGroup] using h

theorem fyCountMap_get (series : List DailyPoint) (yy : ℤ) :
    jget (fyCountMap series) yy =
      (if (fyGroup series yy).isEmpty then none
        else some ((fyGroup series yy).length)) := by
  have h := accumMap_count_get (fun p : DailyPoint => fyYYOf p.date) series yy
  simpa [fyCountMap, fyGroup] using h

theorem fyPrevVal_spec (series : List DailyPoint) (isSum : Bool) (yy : ℤ) :
    fyPrevVal series isSum yy = specFyVal series isSum yy := by
  unfold fyPrevVal specFyVal
  rw [fySumMap_get, fyCountMap_get]
  cases hg : (fyGroup series yy).isEmpty with
  | true => simp
  | false =>
    have hlen : (fyGroup series yy).length ≠ 0 := by
      intro h0
      have hnil := List.length_eq_zero.mp h0
      rw [hnil] at hg
      simp at hg
    simp [hlen]

theorem fyCurrVal_spec (series : List DailyPoint) (isSum : Bool) (yy : ℤ)
    (hne : (fyGroup series yy).isEmpty = false) :
    specFyVal series isSum yy = some (fyCurrVal series isSum yy) := by
  unfold specFyVal fyCurrVal
  rw [fySumMap_get, fyCountMap_get, hne]
  simp

theorem fyMax_go :
    ∀ (g : List DailyPoint) (mx : ℤ),
      ∃ mx2, optAccum fyMaxUpd g (some mx) = some mx2 ∧ mx ≤ mx2 ∧
        (mx2 = mx ∨ mx2 ∈ g.map DailyPoint.date) ∧ ∀ p ∈ g, p.date ≤ mx2 := by
  intro g
  induction g with
  | nil =>
    intro mx
    exact ⟨mx, rfl, le_refl mx, Or.inl rfl, by simp⟩
  | cons p rest ih =>
    intro mx
    obtain ⟨mx2, h1, h2, h3, h4⟩ := ih (fyMaxUpd p (some mx))
    have hstep : mx ≤ fyMaxUpd p (some mx) ∧ p.date ≤ fyMaxUpd p (some mx) ∧
        (fyMaxUpd p (some mx) = mx ∨ fyMaxUpd p (some mx) = p.date) := by
      simp only [fyMaxUpd]
      split_ifs with h
      · exact ⟨by omega, le_refl _, Or.inr rfl⟩
      · exact ⟨le_refl _, by omega, Or.inl rfl⟩
    refine ⟨mx2, ?_, le_trans hstep.1 h2, ?_, ?_⟩
    · simpa [optAccum] using h1
    · rcases h3 with h | h
      · rcases hstep.2.2 with h0 | h0
        · exact Or.inl (h.trans h0)
        · right
          rw [List.map_cons, h, h0]
          exact List.mem_cons_self _ _
      · right
        rw [List.map_cons]
        exact List.mem_cons_of_mem _ h
    · intro q hq
      rcases List.mem_cons.mp hq with h | h
      · rw [h]
        exact le_trans hstep.2.1 h2
      · exact h4 q h

theorem fyMaxDateMap_get (series : List DailyPoint) (yy : ℤ) :
    (fyGroup series yy = [] ∧ jget (fyMaxDateMap series) yy = none) ∨
      ∃ mx, jget (fyMaxDateMap series) yy = some mx ∧
        mx ∈ (fyGroup series yy).map DailyPoint.date ∧
        ∀ p ∈ fyGroup series yy, p.date ≤ mx := by
  have hacc : jget (fyMaxDateMap series) yy =
      optAccum fyMaxUpd (fyGroup series yy) none := by
    have h := accumMap_get (fun p : DailyPoint => fyYYOf p.date) fyMaxUpd series yy
    simpa [fyMaxDateMap, fyGroup] using h
  cases hg : fyGroup series yy with
  | nil =>
    left
    rw [hacc, hg]
    exact ⟨rfl, rfl⟩
  | cons p rest =>
    right
    obtain ⟨mx2, h1, h2, h3, h4⟩ := fyMax_go rest p.date
    have hopt : optAccum fyMaxUpd (p :: rest) none = some mx2 := by
      simpa [optAccum, fyMaxUpd] using h1
    refine ⟨mx2, by rw [hacc, hg]; exact hopt, ?_, ?_⟩
    · rcases h3 with h | h
      · rw [List.map_cons, h]
        exact List.mem_cons_self _ _
      · rw [List.map_cons]
        exact List.mem_cons_of_mem _ h
    · intro q hq
      rcases List.mem_cons.mp hq with h | h
      · rw [h]
        exact h2
      · exact h4 q h

theorem filter_date_sub :
    ∀ (series : List DailyPoint), (series.map DailyPoint.date).Nodup → ∀ d : ℤ,
      series.filter (fun p => p.date = d) = [] ∨
        ∃ p, series.filter (fun p => p.date = d) = [p] := by
  intro series
  induction series with
  | nil =>
    intro _ d
    left
    rfl
  | cons q rest ih =>
    intro hnd d
    rw [List.map_cons, List.nodup_cons] at hnd
    by_cases hq : q.date = d
    · right
      refine ⟨q, ?_⟩
      rw [List.filter_cons_of_pos (by simpa using hq)]
      have hrest : rest.filter (fun p => p.date = d) = [] := by
        rw [List.filter_eq_nil_iff]
        intro p hp
        simp only [decide_eq_true_eq]
        intro hpd
        exact hnd.1 (List.mem_map.mpr ⟨p, hp, hpd.trans hq.symm⟩)
      rw [hrest]
    · rw [List.filter_cons_of_neg (by simpa using hq)]
      exact ih hnd.2 d

theorem dailyLookupMap_get (series : List DailyPoint)
    (hnd : (series.map DailyPoint.date).Nodup) (d : ℤ) :
    jget (dailyLookupMap series) d =
      ((series.filter (fun p => p.date = d)).map DailyPoint.value).head? := by
  have hacc : jget (dailyLookupMap series) d =
      optAccum (fun (p : DailyPoint) (_ : Option ℚ) => p.value)
        (series.filter (fun p => p.date = d)) none := by
    have h := accumMap_get (fun p : DailyPoint => p.date)
      (fun (p : DailyPoint) (_ : Option ℚ) => p.value) series d
    simpa [dailyLookupMap] using h
  rcases filter_date_sub series hnd d with h | ⟨p, h⟩
  · rw [hacc, h]
    rfl
  · rw [hacc, h]
    rfl

theorem length_filterMap_eq (h : ℤ → Option ℚ) :
    ∀ (days : List ℤ),
      (days.filterMap h).length =
        (days.map (fun d => if (h d).isSome then 1 else 0)).sum := by
  intro days
  induction days with
  | nil => simp
  | cons d ds ih =>
    cases hd : h d with
    | none => simp [List.filterMap_cons, hd, ih]
    | some v =>
      simp [List.filterMap_cons, hd, ih]
      omega

theorem sumCountRange_lookup_spec (series : List DailyPoint)
    (hnd : (series.map DailyPoint.date).Nodup) (isSum : Bool) (a b : ℤ) :
    modeVal isSum (sumCountRangeInclusive (jget (dailyLookupMap series)) a b) =
      specRangeVal series isSum a b := by
  by_cases hab : b < a
  · have hfil : series.filter (fun p => a ≤ p.date ∧ p.date ≤ b) = [] := by
      rw [List.filter_eq_nil_iff]
      intro p _
      simp only [decide_eq_true_eq]
      omega
    unfold sumCountRangeInclusive specRangeVal
    rw [if_pos hab, hfil]
    cases isSum <;> rfl
  · push_neg at hab
    rw [sumCountRangeInclusive_spec _ _ _ hab]
    have hmem : ∀ d : ℤ,
        d ∈ (List.range (b - a + 1).toNat).map (fun i : ℕ => a + (i : ℤ)) ↔
          a ≤ d ∧ d ≤ b := by
      intro d
      simp only [List.mem_map, List.mem_range]
      constructor
      · rintro ⟨i, hi, rfl⟩
        omega
      · intro hd
        exact ⟨(d - a).toNat, by omega, by omega⟩
    have hndd : ((List.range (b - a + 1).toNat).map (fun i : ℕ => a + (i : ℤ))).Nodup := by
      refine List.Nodup.map ?_ (List.nodup_range _)
      intro i j hij
      dsimp only at hij
      omega
    have hpt : ∀ d : ℤ,
        ((jget (dailyLookupMap series) d).getD 0) =
          ((series.filter (fun p => p.date = d)).map DailyPoint.value).sum := by
      intro d
      rw [dailyLookupMap_get series hnd d]
      rcases filter_date_sub series hnd d with h | ⟨p, h⟩
      · rw [h]
        rfl
      · rw [h]
        simp
    have hptl : ∀ d : ℤ,
        (if (jget (dailyLookupMap series) d).isSome then 1 else 0) =
          (series.filter (fun p => p.date = d)).length := by
      intro d
      rw [dailyLookupMap_get series hnd d]
      rcases filter_date_sub series hnd d with h | ⟨p, h⟩
      · rw [h]
        rfl
      · rw [h]
        rfl
    have hsum :
        (((List.range (b - a + 1).toNat).map (fun i : ℕ => a + (i : ℤ))).filterMap
            (jget (dailyLookupMap series))).sum =
          ((series.filter (fun p => a ≤ p.date ∧ p.date ≤ b)).map DailyPoint.value).sum := by
      rw [sum_filterMap_opt]
      rw [List.map_congr_left (fun d _ => hpt d)]
      rw [sum_groups series (fun p => p.date) _ hndd]
      congr 1
      congr 1
      apply List.filter_congr
      intro p _
      simp only [hmem]
    have hlen :
        (((List.range (b - a + 1).toNat).map (fun i : ℕ => a + (i : ℤ))).filterMap
            (jget (dailyLookupMap series))).length =
          (series.filter (fun p => a ≤ p.date ∧ p.date ≤ b)).length := by
      rw [length_filterMap_eq]
      rw [List.map_congr_left (fun d _ => hptl d)]
      rw [length_groups series (fun p => p.date) _ hndd]
      congr 1
      apply List.filter_congr
      intro p _
      simp only [hmem]
    have hm0 : ∀ (x : Option ℚ) (L : ℕ), modeVal true (x, L) = x := fun _ _ => rfl
    have hm1 : ∀ (S : ℚ) (L : ℕ),
        modeVal false (some S, L) = if L = 0 then none else some (S / (L : ℚ)) :=
      fun _ _ => rfl
    have hm2 : ∀ (L : ℕ), modeVal false (none, L) = none := fun _ => rfl
    unfold specRangeVal
    cases hgE : (series.filter (fun p => a ≤ p.date ∧ p.date ≤ b)).isEmpty with
    | true =>
      have hnil : series.filter (fun p => a ≤ p.date ∧ p.date ≤ b) = [] := by
        cases hc : series.filter (fun p => a ≤ p.date ∧ p.date ≤ b) with
        | nil => rfl
        | cons x xs =>
          rw [hc] at hgE
          simp at hgE
      have hL0 : (((List.range (b - a + 1).toNat).map (fun i : ℕ => a + (i : ℤ))).filterMap
          (jget (dailyLookupMap series))).length = 0 := by
        rw [hlen, hnil]
        rfl
      rw [if_pos hL0]
      cases isSum with
      | true =>
        rw [hm0]
        simp
      | false =>
        rw [hm2]
        simp
    | false =>
      have hne : series.filter (fun p => a ≤ p.date ∧ p.date ≤ b) ≠ [] := by
        intro h0
        rw [h0] at hgE
        simp at hgE
      have hL : (((List.range (b - a + 1).toNat).map (fun i : ℕ => a + (i : ℤ))).filterMap
          (jget (dailyLookupMap series))).length ≠ 0 := by
        rw [hlen]
        intro h0
        exact hne (List.length_eq_zero.mp h0)
      rw [if_neg hL]
      cases isSum with
      | true =>
        rw [hm0, hsum]
        simp
      | false =>
        rw [hm1, if_neg hL, hsum, hlen]
        simp

theorem fyRowFor_spec (series : List DailyPoint) (isSum : Bool) (yy mx : ℤ)
    (hnd : (series.map DailyPoint.date).Nodup)
    (hmx : jget (fyMaxDateMap series) yy = some mx) :
    (fyGroup series (yy - 1) = [] → (fyRowFor series isSum yy).yoy_pct = none) ∧
      (fyGroup series (yy - 1) ≠ [] →
        (civilToDay (2000 + yy) 3 31 ≤ mx →
          (fyRowFor series isSum yy).yoy_pct =
            (match specFyVal series isSum (yy - 1) with
              | some pv => growthPct (fyCurrVal series isSum yy) pv
              | none => none)) ∧
        (¬ civilToDay (2000 + yy) 3 31 ≤ mx →
          (fyRowFor series isSum yy).yoy_pct =
            (match specRangeVal series isSum (fyStartDayOf yy) mx,
                specRangeVal series isSum (fyStartDayOf (yy - 1)) (isoAddYears mx (-1)) with
              | some cv, some pv => growthPct cv pv
              | _, _ => none))) := by
  have hget : (jget (fyMaxDateMap series) yy).getD 0 = mx := by
    rw [hmx]
    rfl
  constructor
  · intro hg1
    have hs : jget (fySumMap series) (yy - 1) = none := by
      rw [fySumMap_get, hg1]
      rfl
    simp only [fyRowFor]
    rw [hs]
  · intro hg1
    have hgE : (fyGroup series (yy - 1)).isEmpty = false := by
      cases hc : fyGroup series (yy - 1) with
      | nil => exact absurd hc hg1
      | cons p rest => rfl
    have hs : jget (fySumMap series) (yy - 1) =
        some (((fyGroup series (yy - 1)).map DailyPoint.value).sum) := by
      rw [fySumMap_get, hgE]
      simp
    have hc : jget (fyCountMap series) (yy - 1) =
        some ((fyGroup series (yy - 1)).length) := by
      rw [fyCountMap_get, hgE]
      simp
    have hlen : (fyGroup series (yy - 1)).length ≠ 0 := by
      intro h0
      exact hg1 (List.length_eq_zero.mp h0)
    constructor
    · intro hcomp
      simp only [fyRowFor]
      rw [hs, hc, hget, fyPrevVal_spec]
      simp [hlen, hcomp]
    · intro hincomp
      simp only [fyRowFor]
      rw [hs, hc, hget,
        sumCountRange_lookup_spec series hnd isSum (fyStartDayOf yy) mx,
        sumCountRange_lookup_spec series hnd isSum (fyStartDayOf (yy - 1)) (isoAddYears mx (-1))]
      simp [hlen, hincomp]

/-- Claim C6, amended: each `yearlyFYRows` row aggregates the April–March
fiscal year of its label (its value is the full-year sum, or the mean in
average mode); year-over-year growth is absent without prior fiscal-year data;
with prior data, a complete fiscal year (latest contributing date reaching
March 31 of its end year) compares full-year values, while an *incomplete* one
compares the current window from April 1 to the latest date `maxD` against the
prior window from the prior April 1 to `isoAddYears maxD (-1)` — the latest
date shifted back one calendar year, clamped to the end of its month — which
is not in general the window with the same elapsed day count (the two windows
differ around a February 29 straddled by exactly one of them). -/
theorem yearlyFYRows_elapsed_yoy :
    ∀ (series : List DailyPoint) (isSum : Bool) (r : FYRow),
      (series.map DailyPoint.date).Nodup →
      (∀ p ∈ series, 2000 ≤ fyEndYearOf p.date ∧ fyEndYearOf p.date ≤ 2099) →
      r ∈ yearlyFYRows series isSum →
      fyGroup series r.fy ≠ [] ∧
      specFyVal series isSum r.fy = some r.value ∧
      ∃ mx, mx ∈ (fyGroup series r.fy).map DailyPoint.date ∧
        (∀ p ∈ fyGroup series r.fy, p.date ≤ mx) ∧
        (fyGroup series (r.fy - 1) = [] → r.yoy_pct = none) ∧
        (fyGroup series (r.fy - 1) ≠ [] →
          (civilToDay (2000 + r.fy) 3 31 ≤ mx →
            r.yoy_pct = (match specFyVal series isSum (r.fy - 1) with
              | some pv => growthPct r.value pv
              | none => none)) ∧
          (¬ civilToDay (2000 + r.fy) 3 31 ≤ mx →
            r.yoy_pct = (match specRangeVal series isSum (fyStartDayOf r.fy) mx,
                specRangeVal series isSum (fyStartDayOf (r.fy - 1)) (isoAddYears mx (-1)) with
              | some cv, some pv => growthPct cv pv
              | _, _ => none))) := by
  intro series isSum r hnd hrange hr
  simp only [yearlyFYRows, List.mem_map] at hr
  obtain ⟨yy, hyy, rfl⟩ := hr
  have hkeys : yy ∈ (fySumMap series).map Prod.fst := by
    rwa [List.mem_insertionSort] at hyy
  have hne : (fyGroup series yy).isEmpty = false := by
    cases hb : (fyGroup series yy).isEmpty
    · rfl
    · exfalso
      have hg := fySumMap_get series yy
      rw [hb, if_pos rfl] at hg
      exact (jget_eq_none_iff (fySumMap series) yy).mp hg hkeys
  have hgne : fyGroup series yy ≠ [] := by
    intro h0
    rw [h0] at hne
    simp at hne
  have hfy : (fyRowFor series isSum yy).fy = yy := rfl
  have hval : (fyRowFor series isSum yy).value = fyCurrVal series isSum yy := rfl
  rcases fyMaxDateMap_get series yy with ⟨hnil, _⟩ | ⟨mx, hmx, hmem, hub⟩
  · exact absurd hnil hgne
  have hrow := fyRowFor_spec series isSum yy mx hnd hmx
  rw [hfy, hval]
  exact ⟨hgne, fyCurrVal_spec series isSum yy hne, mx, hmem, hub, hrow.1, hrow.2⟩

/-- Five daily points: 2022-04-01 (day 19083, value 3), 2023-02-28 (day 19416,
value 4) and 2023-03-01 (day 19417, value 100) in fiscal year FY23;
2023-04-01 (day 19448, value 10) and the leap day 2024-02-29 (day 19782,
value 5) in the incomplete fiscal year FY24. -/
def c6Series : List DailyPoint :=
  [⟨19083, 3⟩, ⟨19416, 4⟩, ⟨19417, 100⟩, ⟨19448, 10⟩, ⟨19782, 5⟩]

/-- The incomplete-year comparison as the claim states it (specification
side): the prior-year window starts April 1 of the prior fiscal year and spans
the *same elapsed day count* as the current window ending at `mx`. -/
def specSameCountYoY (series : List DailyPoint) (isSum : Bool) (yy mx : ℤ) : Option ℚ :=
  match specRangeVal series isSum (fyStartDayOf yy) mx,
      specRangeVal series isSum (fyStartDayOf (yy - 1))
        (fyStartDayOf (yy - 1) + (mx - fyStartDayOf yy)) with
  | some cv, some pv => growthPct cv pv
  | _, _ => none

/-- Counterexample to claim C6 as stated: for an incomplete fiscal year the
prior window ends at the latest date shifted back one *calendar year*
(clamped), which does not generally span the same elapsed day count. On
`c6Series` the FY24 window 2023-04-01 … 2024-02-29 spans 335 days and sums to
15, but the code's prior window 2022-04-01 … 2023-02-28 spans only 334 days
(2023-02-28 is the clamp of 2024-02-29 minus one year) and sums to 7, giving
800/7 % growth; the claimed equal-day-count prior window
2022-04-01 … 2023-03-01 also includes 2023-03-01 (value 100), sums to 107,
and would give −9200/107 %. -/
theorem yearlyFY_prior_window_shorter :
    fyRowFor c6Series true 24 ∈ yearlyFYRows c6Series true ∧
      (fyRowFor c6Series true 24).yoy_pct = some (800 / 7) ∧
      specSameCountYoY c6Series true 24 19782 = some (-9200 / 107) ∧
      (fyRowFor c6Series true 24).yoy_pct ≠ specSameCountYoY c6Series true 24 19782 := by
  have hmx : jget (fyMaxDateMap c6Series) 24 = some 19782 := by decide
  have hspec := fyRowFor_spec c6Series true 24 19782 (by decide) hmx
  have hne : fyGroup c6Series (24 - 1) ≠ [] := by decide
  have hincomp : ¬ civilToDay (2000 + 24) 3 31 ≤ (19782 : ℤ) := by decide
  have hyo := (hspec.2 hne).2 hincomp
  have hst24 : fyStartDayOf 24 = 19448 := by decide
  have hst23 : fyStartDayOf (24 - 1) = 19083 := by decide
  have hadd : isoAddYears (19782 : ℤ) (-1) = 19416 := by decide
  rw [hst24, hst23, hadd] at hyo
  have h1 : specRangeVal c6Series true 19448 19782 = some 15 := by
    norm_num [specRangeVal, c6Series]
  have h2 : specRangeVal c6Series true 19083 19416 = some 7 := by
    norm_num [specRangeVal, c6Series]
  rw [h1, h2] at hyo
  have hyo2 : (fyRowFor c6Series true 24).yoy_pct = some (800 / 7) := by
    rw [hyo]
    norm_num [growthPct, safeDiv]
  have h4 : specRangeVal c6Series true 19083 (19083 + (19782 - 19448)) = some 107 := by
    norm_num [specRangeVal, c6Series]
  have h3 : specSameCountYoY c6Series true 24 19782 = some (-9200 / 107) := by
    unfold specSameCountYoY
    rw [hst24, hst23, h1, h4]
    norm_num [growthPct, safeDiv]
  have hm : fyRowFor c6Series true 24 ∈ yearlyFYRows c6Series true := by
    simp only [yearlyFYRows]
    refine List.mem_map.mpr ⟨24, ?_, rfl⟩
    rw [List.mem_insertionSort]
    simp only [fySumMap]
    exact (accumMap_mem_keys_iff _ _ _ _).mpr
      ⟨⟨19448, 10⟩, by decide, by decide⟩
  refine ⟨hm, hyo2, h3, ?_⟩
  rw [hyo2, h3]
  intro hcontra
  rw [Option.some.injEq] at hcontra
  norm_num at hcontra

/-- Three daily points: 2022-04-03 (day 19085, value 10, fiscal year FY23),
2023-04-02 (day 19449, value 12) and 2023-04-05 (day 19452, value 3), both in
the incomplete fiscal year FY24. -/
def c6Small : List DailyPoint :=
  [⟨19085, 10⟩, ⟨19449, 12⟩, ⟨19452, 3⟩]

theorem yearlyFYRows_elapsed_yoy_witness :
    (fyRowFor c6Small true 24).yoy_pct = some 50 ∧
      fyRowFor c6Small true 24 ∈ yearlyFYRows c6Small true := by
  have hm : fyRowFor c6Small true 24 ∈ yearlyFYRows c6Small true := by
    simp only [yearlyFYRows]
    refine List.mem_map.mpr ⟨24, ?_, rfl⟩
    rw [List.mem_insertionSort]
    simp only [fySumMap]
    exact (accumMap_mem_keys_iff _ _ _ _).mpr
      ⟨⟨19449, 12⟩, by decide, by decide⟩
  have h := yearlyFYRows_elapsed_yoy c6Small true (fyRowFor c6Small true 24)
    (by decide) (by decide) hm
  have hfy : (fyRowFor c6Small true 24).fy = 24 := rfl
  rw [hfy] at h
  obtain ⟨-, -, mx, hmem, hub, -, hB⟩ := h
  have hgrp : fyGroup c6Small 24 = [⟨19449, 12⟩, ⟨19452, 3⟩] := by decide
  rw [hgrp] at hmem hub
  have hub2 : (19452 : ℤ) ≤ mx := hub ⟨19452, 3⟩ (by simp)
  have hmx : mx = 19452 := by
    simp only [List.map_cons, List.map_nil, List.mem_cons, List.not_mem_nil, or_false] at hmem
    rcases hmem with h | h
    · omega
    · exact h
  subst hmx
  have hne : fyGroup c6Small (24 - 1) ≠ [] := by decide
  have hincomp : ¬ civilToDay (2000 + 24) 3 31 ≤ (19452 : ℤ) := by decide
  have hyo := (hB hne).2 hincomp
  have hst24 : fyStartDayOf 24 = 19448 := by decide
  have hst23 : fyStartDayOf (24 - 1) = 19083 := by decide
  have hadd : isoAddYears (19452 : ℤ) (-1) = 19087 := by decide
  rw [hst24, hst23, hadd] at hyo
  have h1 : specRangeVal c6Small true 19448 19452 = some 15 := by
    norm_num [specRangeVal, c6Small]
  have h2 : specRangeVal c6Small true 19083 19087 = some 10 := by
    norm_num [specRangeVal, c6Small]
  rw [h1, h2] at hyo
  refine ⟨?_, hm⟩
  rw [hyo]
  norm_num [growthPct, safeDiv]
